import Mathlib

/-!
Shallow embedding of the rimmy kernel's process runtime
(`src/rimmy_kernel/src/sys/proc/{mod.rs,mem.rs}` and
`src/rimmy_kernel/src/sys/syscall/{memory.rs,service.rs,utils.rs}`),
together with theorems settling the frozen claims about it.

Machine integers are modelled as `Nat` with explicit `% 2^64` where the Rust
code can wrap; fallible operations return `Except`/`Option`; kernel
collaborators (frame allocator, VFS nodes, the TTY input queue) are passed in
as explicit oracle parameters, mirroring the call sites.
-/

namespace Rimmy

/-! ## Constants (from `proc/mod.rs`, `proc/mem.rs`, `syscall/memory.rs`,
`rimmy_common/src/syscall/types.rs`) -/

def PAGE : Nat := 4096
def USER_STACK_TOP : Nat := 0x00007FFFFFFFF000
def USER_STACK_SIZE : Nat := 0x64000
def MAIN_DYN_LOAD_BASE : Nat := 0x40000000
def INTERP_DYN_LOAD_BASE : Nat := 0x60000000
def USER_LOWER : Nat := 0x0000000040000000
def USER_UPPER : Nat := 0x00007FFFF0000000
def USER_MAX : Nat := 0x00007fffffffffff
def U64_MOD : Nat := 2 ^ 64

def EIO : Int := 5
def EBADF : Int := 9
def EAGAIN : Int := 11
def ENOMEM : Int := 12
def EINVAL : Int := 22

def O_RDONLY : Nat := 0
def O_WRONLY : Nat := 1
def O_ACCMODE : Nat := 3
def O_APPEND : Nat := 0o2000
def O_NONBLOCK : Nat := 0o4000

/-- `usize -> i64` cast (two's complement), used where the Rust code returns a
`usize` value through an `i64` syscall result. -/
def i64ofNat (n : Nat) : Int :=
  if n % U64_MOD < 2 ^ 63 then ((n % U64_MOD : Nat) : Int)
  else ((n % U64_MOD : Nat) : Int) - (U64_MOD : Int)

/-! ## `proc/mem.rs`: `ProcMM` -/

/-- `align_up(x, a) = (x + a - 1) & !(a - 1)` on `usize`; the addition wraps
modulo `2^64` in a release build, the mask clears the low bits (all `a` used by
the kernel are powers of two, in fact `a = PAGE`). -/
def alignUp (x a : Nat) : Nat := ((x + a - 1) % U64_MOD) / a * a

def alignDn (x a : Nat) : Nat := x / a * a

/-- Oracle for `alloc_pages(mapper, base, len, writable, executable)`:
whether mapping the range succeeds. -/
abbrev AllocOracle := Nat → Nat → Bool → Bool → Bool

inductive MmapKind | Owned | Shared
deriving DecidableEq, Repr

structure MmapRegion where
  base : Nat
  len : Nat
  kind : MmapKind
deriving DecidableEq, Repr

structure ProcMM where
  heap_start : Nat
  brk_cur : Nat
  mapped_heap_end : Nat
  mmap_base_hint : Nat
  mmap_regions : List MmapRegion
deriving DecidableEq, Repr

def ProcMM.new (heapStart : Nat) : ProcMM :=
  let hs := alignUp heapStart PAGE
  { heap_start := hs, brk_cur := hs, mapped_heap_end := hs
    mmap_base_hint := 0, mmap_regions := [] }

/-- `ProcMM::set_brk`.  Growth calls `alloc_pages(..., true, true)`;
`dealloc_pages` has its result ignored by the source
(`let _ = dealloc_pages(...)`), so no oracle is needed for shrinking.
Returns the new state paired with `Ok(brk value)` or `Err` (state unchanged in
the record; partial page mappings are outside the record). -/
def ProcMM.set_brk (mm : ProcMM) (allocOk : AllocOracle) (newEnd : Nat) :
    ProcMM × Except Unit Nat :=
  let newEnd := alignUp newEnd PAGE
  if newEnd < mm.heap_start then
    -- fail but report current break (Linux does this)
    (mm, .ok mm.brk_cur)
  else if newEnd > mm.mapped_heap_end then
    if allocOk mm.mapped_heap_end (newEnd - mm.mapped_heap_end) true true then
      ({ mm with mapped_heap_end := newEnd, brk_cur := newEnd }, .ok newEnd)
    else (mm, .error ())
  else if newEnd < mm.mapped_heap_end then
    ({ mm with mapped_heap_end := newEnd, brk_cur := newEnd }, .ok newEnd)
  else
    ({ mm with brk_cur := newEnd }, .ok newEnd)

/-- `ProcMM::ensure_mmap_base`. -/
def ProcMM.ensure_mmap_base (mm : ProcMM) : ProcMM :=
  if mm.mmap_base_hint = 0 then
    { mm with mmap_base_hint := alignUp (max mm.mapped_heap_end USER_LOWER) PAGE }
  else mm

/-- `ProcMM::reserve_mmap_range`.  The source's `checked_add` failure and the
`end >= USER_UPPER` check both yield `None`; on `Nat` the addition cannot wrap,
so the single comparison covers both. -/
def ProcMM.reserve_mmap_range (mm : ProcMM) (length : Nat) : Option (ProcMM × Nat) :=
  let mm := mm.ensure_mmap_base
  let len := alignUp length PAGE
  let base := alignUp mm.mmap_base_hint PAGE
  let ed := base + len
  if ed ≥ USER_UPPER then none
  else some ({ mm with mmap_base_hint := ed }, base)

def ProcMM.track_mmap (mm : ProcMM) (base len : Nat) (kind : MmapKind) : ProcMM :=
  { mm with mmap_regions := mm.mmap_regions ++ [⟨base, len, kind⟩] }

/-- Helper for `ProcMM::remove_mmap`: `iter().position(|r| r.base == base &&
r.len == len)` followed by `remove(pos)` — drop the first matching region and
return the remaining list with the removed region's kind. -/
def removeRegion (base len : Nat) : List MmapRegion → Option (List MmapRegion × MmapKind)
  | [] => none
  | r :: rest =>
      if r.base = base ∧ r.len = len then some (rest, r.kind)
      else
        match removeRegion base len rest with
        | some (rest', k) => some (r :: rest', k)
        | none => none

/-- `ProcMM::remove_mmap`: drop the first tracked region with the given
`(base, len)`, returning its kind. -/
def ProcMM.remove_mmap (mm : ProcMM) (base len : Nat) : Option (ProcMM × MmapKind) :=
  match removeRegion base len mm.mmap_regions with
  | some (l, k) => some ({ mm with mmap_regions := l }, k)
  | none => none

def ProcMM.curr_brk (mm : ProcMM) : Nat := mm.brk_cur

/-! ## `syscall/memory.rs`: `brk`, `mmap`, `munmap` -/

def PROT_READ : Nat := 1
def PROT_WRITE : Nat := 2
def PROT_EXEC : Nat := 4
def MAP_SHARED : Nat := 0x01
def MAP_PRIVATE : Nat := 0x02
def MAP_FIXED : Nat := 0x10
def MAP_ANONYMOUS : Nat := 0x20

/-- The `brk` syscall handler (the current process is resolved by the caller;
here its `ProcMM` is passed explicitly). -/
def brkSys (mm : ProcMM) (allocOk : AllocOracle) (addr : Nat) : ProcMM × Int :=
  if addr = 0 then (mm, i64ofNat mm.curr_brk)   -- report current break
  else
    match mm.set_brk allocOk addr with
    | (mm', .ok ed) => (mm', i64ofNat ed)          -- success: return new break
    | (mm', .error ()) => (mm', i64ofNat mm'.curr_brk) -- failure: return current break

/-- Address selection in `mmap`: with `MAP_FIXED` a zero or unaligned `addr`
is rejected and `addr` itself is used; otherwise the bump cursor assigns the
range. -/
def mmapPlace (mm : ProcMM) (flags addr len : Nat) : Option (ProcMM × Nat) :=
  if flags &&& MAP_FIXED ≠ 0 then
    if addr = 0 ∨ addr % PAGE ≠ 0 then none else some (mm, addr)
  else mm.reserve_mmap_range len

/-- The tail of `mmap` once the VA is chosen: reject page 0; the file-backed
path (`!MAP_ANONYMOUS` and `fd != -1`) checks the fd, delegates to
`node.mmap` (oracle `nodeMmap va len`), requires it to return the requested
VA and tracks the range `Shared`; the anonymous path allocates fresh frames
and tracks it `Owned`. -/
def mmapFinish (mm : ProcMM) (allocOk : AllocOracle) (fdOpen : Int → Bool)
    (nodeMmap : Nat → Nat → Except Int Nat) (va len prot flags : Nat)
    (fd : Int) : ProcMM × Int :=
  let writable : Bool := prot &&& PROT_WRITE != 0
  let executable : Bool := prot &&& PROT_EXEC != 0
  if va = 0 then (mm, -EINVAL)      -- never map page 0
  else if flags &&& MAP_ANONYMOUS = 0 ∧ fd ≠ -1 then
    if fd < 3 then (mm, -EBADF)
    else if fdOpen fd = false then (mm, -EBADF)
    else
      match nodeMmap va len with
      | .ok mapped =>
          if mapped ≠ va then (mm, -EINVAL)
          else (mm.track_mmap va len .Shared, i64ofNat va)
      | .error code => (mm, code)
  else
    if allocOk va len writable executable then
      (mm.track_mmap va len .Owned, i64ofNat va)
    else (mm, -ENOMEM)

/-- The `mmap` syscall handler.  `fd` is the already-sign-extended file
descriptor argument (`fd as i64` in the source); `fdOpen` tells whether slot
`fd - 3` of the process fd table holds an entry, and `nodeMmap va len` is the
oracle for `vfs_node.mmap(process, va, len, prot, flags, offset)`. -/
def mmapSys (mm : ProcMM) (allocOk : AllocOracle)
    (fdOpen : Int → Bool) (nodeMmap : Nat → Nat → Except Int Nat)
    (addr : Nat) (size : Nat) (prot flags : Nat) (fd : Int) (offset : Nat) :
    ProcMM × Int :=
  if size = 0 then (mm, -EINVAL)
  else
    let len := alignUp size PAGE
    if offset % PAGE ≠ 0 then (mm, -EINVAL)
    else
      match mmapPlace mm flags addr len with
      | none =>
          if flags &&& MAP_FIXED ≠ 0 then (mm, -EINVAL) else (mm, -ENOMEM)
      | some (mm2, va) =>
          mmapFinish mm2 allocOk fdOpen nodeMmap va len prot flags fd

/-- The `munmap` syscall handler.  `deallocOk` / `unmapOk` are the oracles for
`dealloc_pages` and `unmap_user_pages`. -/
def munmapSys (mm : ProcMM) (deallocOk unmapOk : Nat → Nat → Bool)
    (addr : Nat) (size : Nat) : ProcMM × Int :=
  if size = 0 then (mm, -EINVAL)
  else if addr % PAGE ≠ 0 then (mm, -EINVAL)
  else
    let len := alignUp size PAGE
    match mm.remove_mmap addr len with
    | none => (mm, -EINVAL)
    | some (mm', kind) =>
        match kind with
        | .Owned => if deallocOk addr len then (mm', 0) else (mm', -1)
        | .Shared => if unmapOk addr len then (mm', 0) else (mm', -1)

/-! ## `syscall/service.rs`: fd table (`install_fd_entry`, `close`,
`fcntl(F_DUPFD)`) -/

/-- The scan part of `install_fd_entry`: `for idx in start_idx..len { if
table[idx].is_none() { table[idx] = Some(entry); return idx + 3 } }`. -/
def scanInstall {α : Type} (t : List (Option α)) (e : α) (idx : Nat) :
    Option (List (Option α) × Nat) :=
  if h : idx < t.length then
    if (t.get ⟨idx, h⟩).isNone then some (t.set idx (some e), idx)
    else scanInstall t e (idx + 1)
  else none
termination_by t.length - idx

/-- `install_fd_entry(process, entry, min_fd)`: `min_fd < 0` is `EINVAL`
(positive, negated by the caller); otherwise scan for a free slot from
`start_idx = max(min_fd - 3, 0)`, and on failure pad the table with `None` up
to `start_idx` and push the entry at the end.  Returns `(new table, fd)`. -/
def installFdEntry {α : Type} (t : List (Option α)) (e : α) (minFd : Int) :
    Except Int (List (Option α) × Nat) :=
  if minFd < 0 then .error EINVAL
  else
    let start := (minFd - 3).toNat
    match scanInstall t e start with
    | some (t', idx) => .ok (t', idx + 3)
    | none =>
        let t' := t ++ List.replicate (start - t.length) none
        .ok (t' ++ [some e], t'.length + 3)

/-- Specification-side predicate: slot `i` of the fd table is free — either
beyond the table or `None`. -/
def slotFree {α : Type} (t : List (Option α)) (i : Nat) : Bool :=
  match t.get? i with
  | some (some _) => false
  | _ => true

/-- The `close` syscall handler restricted to its fd-table effect. -/
def closeSys {α : Type} (t : List (Option α)) (fd : Int) :
    List (Option α) × Int :=
  if fd < 0 then (t, -EBADF)
  else if fd ≤ 2 then (t, 0)
  else
    let idx := (fd - 3).toNat
    match t.get? idx with
    | some (some _) => (t.set idx none, 0)
    | _ => (t, -EBADF)

/-- `fcntl(fd, F_DUPFD, arg)`: reject stdio fds and oversized `arg`, clone the
source entry with `FD_CLOEXEC` cleared, and install it at the smallest free fd
`>= max(arg, 3)`.  Entries are abstracted to their payload `α`. -/
def fcntlDupFd {α : Type} (t : List (Option α)) (fd : Int) (arg : Nat) :
    Except Int (List (Option α) × Nat) :=
  if fd < 0 then .error (-EBADF)
  else if fd ≤ 2 then .error (-EBADF)
  else if arg > 0x7FFFFFFF then .error (-EINVAL)
  else
    let minFd := max ((arg : Nat) : Int) 3
    match t.get? (fd - 3).toNat with
    | some (some src) =>
        match installFdEntry t src minFd with
        | .ok r => .ok r
        | .error code => .error (-code)
    | _ => .error (-EBADF)

/-! ## `syscall/service.rs`: `lseek` -/

/-- The per-fd mutable state `lseek` touches: the seek cursor and the VFS
node's metadata size. -/
structure OpenFileM where
  seek : Nat
  size : Nat
deriving DecidableEq, Repr

/-- The `lseek` syscall handler: `whence` is the `u8` third argument.
`SEEK_CUR` (1) ignores `offset` and returns the cursor; `SEEK_END` (2) ignores
`offset` and sets the cursor to the file size; only `SEEK_SET` (0) uses
`offset`; anything else is `-EINVAL`. -/
def lseekSys (t : List (Option OpenFileM)) (fd : Nat) (offset : Nat)
    (whence : Nat) : List (Option OpenFileM) × Int :=
  if fd < 3 then (t, -EBADF)
  else
    match t.get? (fd - 3) with
    | some (some f) =>
        match whence with
        | 0 => (t.set (fd - 3) (some { f with seek := offset }), i64ofNat offset)
        | 1 => (t, i64ofNat f.seek)
        | 2 => (t.set (fd - 3) (some { f with seek := f.size }), i64ofNat f.size)
        | _ => (t, -EINVAL)
    | _ => (t, -EBADF)

/-! ## `syscall/service.rs`: `read` on fd 0 and `fcntl(F_SETFL)` on stdio -/

/-- `console::pipeline_read`: `None` when no pipeline stage is active or the
stage has no captured input attached; otherwise drains up to `buf.len()`
bytes. `pipeline` is `PIPELINE_STATE`: the outer `Option` is the active stage,
the inner one its input buffer. -/
def pipelineRead (pipeline : Option (Option (List Nat))) (bufLen : Nat) :
    Option Nat :=
  match pipeline with
  | some (some input) => some (min bufLen input.length)
  | _ => none

/-- `Tty::poll`: `Ok(!self.input_buffer.lock().is_empty())`. -/
def ttyPoll (input : List Nat) : Except Unit Bool := .ok (¬ input.isEmpty)

/-- The fd-0 branch of the `read` syscall handler.  `stdioFlags0` is
`process.stdio_flags[0]`; `ttyInput` the TTY input queue; `ttyRead` the oracle
for the (potentially blocking) `tty.read` call. -/
def readFd0 (pipeline : Option (Option (List Nat))) (stdioFlags0 : Nat)
    (ttyInput : List Nat) (ttyRead : Except Unit Nat) (bufLen : Nat) : Int :=
  match pipelineRead pipeline bufLen with
  | some bytes => Int.ofNat bytes
  | none =>
      if stdioFlags0 &&& O_NONBLOCK ≠ 0 then
        match ttyPoll ttyInput with
        | .ok true =>
            match ttyRead with
            | .ok v => Int.ofNat v
            | .error () => 0
        | .ok false => -EAGAIN
        | .error () => - EIO
      else
        match ttyRead with
        | .ok v => Int.ofNat v
        | .error () => 0

def STATUS_FLAG_MUTABLE : Nat := O_APPEND ||| O_NONBLOCK

/-- `fcntl(fd, F_SETFL, arg)` on a stdio fd: keep the non-mutable bits of the
stored status flags, replace the mutable ones (`O_APPEND | O_NONBLOCK`). -/
def fcntlSetflStdio (current : Nat) (arg : Nat) : Nat :=
  let newBits := arg &&& STATUS_FLAG_MUTABLE
  let preserved := current &&& (U64_MOD - 1 - STATUS_FLAG_MUTABLE)
  preserved ||| newBits

/-! ## `proc/mod.rs`: `build_initial_stack`

Strings are byte lists.  The byte memory written below `USER_STACK_TOP` is
recorded as an association list `(address, byte)` (writes never overlap, the
cursor only descends); the qword area is recorded as `words`, where `words[i]`
is the 8-byte value at address `rsp + 8 * i` of the returned `rsp` (each
`rsp -= 8; *rsp = v` conses `v` onto the front). -/

/-- Consecutive byte writes starting at address `p`. -/
def writeBytesAt (p : Nat) : List Nat → List (Nat × Nat)
  | [] => []
  | b :: rest => (p, b) :: writeBytesAt (p + 1) rest

/-- `push_bytes`: copy the string plus a trailing NUL at `rsp - (len + 1)`;
returns the new `rsp` (the pointer to the string) and the byte writes. -/
def pushBytes (rsp : Nat) (s : List Nat) : Nat × List (Nat × Nat) :=
  let p := rsp - (s.length + 1)
  (p, writeBytesAt p (s ++ [0]))

/-- One string-pushing `for` loop: returns the final `rsp`, the byte writes,
and the collected pointers in iteration order (the order they were `push`ed
onto the Rust `Vec`). -/
def pushStrs (rsp : Nat) : List (List Nat) → Nat × List (Nat × Nat) × List Nat
  | [] => (rsp, [], [])
  | s :: rest =>
      let (p, w) := pushBytes rsp s
      let (rsp', mem, ps) := pushStrs p rest
      (rsp', mem ++ w, p :: ps)

/-- The address each pushed string body ends up at, in iteration order
(the first pushed string sits highest). -/
def strAddrs (rsp : Nat) : List (List Nat) → List Nat
  | [] => []
  | s :: rest => (rsp - (s.length + 1)) :: strAddrs (rsp - (s.length + 1)) rest

def strTotalLen (ss : List (List Nat)) : Nat := (ss.map (fun s => s.length + 1)).sum

structure BIOut where
  rsp : Nat
  bytes : List (Nat × Nat)
  words : List Nat
  argvPtrs : List Nat
  envpPtrs : List Nat
  auxv : List (Nat × Nat)
deriving Repr

/-- `build_initial_stack`.  Mirrors the source: envp strings are pushed
iterating `envs.iter().rev()` and the collected pointer vector is then
`reverse()`d; argv strings are pushed in original order and the collected
vector is then `reverse()`d; 16 zero bytes stand in for `AT_RANDOM` when no
pointer is supplied; the auxv (14 entries of 16 bytes) is copied ascending;
then a zero qword, the envp pointers, a zero qword, the argv pointers and
finally `argc` are pushed.  The comment in the source about padding before
argc is not accompanied by any code: no padding qword is ever emitted. -/
def buildInitialStack (top auxEntry atBase : Nat)
    (argv envp : Option (List (List Nat)))
    (phdrAddr phent phnum : Nat)
    (execfnPtr random16Ptr : Option Nat) : BIOut :=
  let (rsp1, memE, envPs) :=
    match envp with
    | some envs => pushStrs top envs.reverse
    | none => (top, [], [])
  let envpPtrs := envPs.reverse
  let (rsp2, memA, argPs) :=
    match argv with
    | some args => pushStrs rsp1 args
    | none => (rsp1, [], [])
  let argvPtrs := argPs.reverse
  let (rsp3, memR, randPtr) :=
    match random16Ptr with
    | some p => (rsp2, ([] : List (Nat × Nat)), p)
    | none =>
        let p := rsp2 - 16
        (p, (List.range 16).map (fun i => (p + i, 0)), p)
  let execfn := (execfnPtr.or (argvPtrs.get? 0)).getD 0
  let auxVec : List (Nat × Nat) :=
    [(3, phdrAddr), (4, phent), (5, phnum), (7, atBase), (6, 4096),
     (9, auxEntry), (25, randPtr), (31, execfn), (17, 0), (18, 0), (19, 0),
     (20, 0), (23, 100), (0, 0)]
  let rsp4 := rsp3 - 16 * auxVec.length
  let auxWords := auxVec.foldr (fun kv acc => kv.1 :: kv.2 :: acc) []
  let w1 : List Nat := 0 :: auxWords
  let w2 := envpPtrs.foldl (fun acc p => p :: acc) w1
  let w3 : List Nat := 0 :: w2
  let w4 := argvPtrs.foldl (fun acc p => p :: acc) w3
  let w5 : List Nat := argvPtrs.length :: w4
  let rsp5 := rsp4 - 8 * (1 + envpPtrs.length + 1 + argvPtrs.length + 1)
  { rsp := rsp5, bytes := memR ++ memA ++ memE, words := w5,
    argvPtrs := argvPtrs, envpPtrs := envpPtrs, auxv := auxVec }

/-- Read one byte of the recorded string region. -/
def readByte (mem : List (Nat × Nat)) (a : Nat) : Option Nat :=
  (mem.find? (fun e => e.1 = a)).map (fun e => e.2)

/-- Read the NUL-terminated byte string starting at `a` (fuel-bounded). -/
def readCStr (mem : List (Nat × Nat)) (a : Nat) : Nat → List Nat
  | 0 => []
  | fuel + 1 =>
      match readByte mem a with
      | some 0 => []
      | some b => b :: readCStr mem (a + 1) fuel
      | none => []

/-! ## UTF-8 validity (`core::str::from_utf8` acceptance, used by the
PT_INTERP string capture and by `copy_cstr_from_user`) -/

def utf8Cont (b : Nat) : Bool := decide (0x80 ≤ b) && decide (b ≤ 0xBF)

/-- Validity of a byte list as UTF-8, exactly the ranges `from_utf8`
accepts (no overlong encodings, no surrogates, max U+10FFFF). -/
def isUtf8 : List Nat → Bool
  | [] => true
  | b :: rest =>
    if b ≤ 0x7F then isUtf8 rest
    else if 0xC2 ≤ b ∧ b ≤ 0xDF then
      match rest with
      | c :: r => utf8Cont c && isUtf8 r
      | [] => false
    else if b = 0xE0 then
      match rest with
      | c :: d :: r => decide (0xA0 ≤ c) && decide (c ≤ 0xBF) && utf8Cont d && isUtf8 r
      | _ => false
    else if (0xE1 ≤ b ∧ b ≤ 0xEC) ∨ b = 0xEE ∨ b = 0xEF then
      match rest with
      | c :: d :: r => utf8Cont c && utf8Cont d && isUtf8 r
      | _ => false
    else if b = 0xED then
      match rest with
      | c :: d :: r => decide (0x80 ≤ c) && decide (c ≤ 0x9F) && utf8Cont d && isUtf8 r
      | _ => false
    else if b = 0xF0 then
      match rest with
      | c :: d :: e :: r =>
          decide (0x90 ≤ c) && decide (c ≤ 0xBF) && utf8Cont d && utf8Cont e && isUtf8 r
      | _ => false
    else if 0xF1 ≤ b ∧ b ≤ 0xF3 then
      match rest with
      | c :: d :: e :: r => utf8Cont c && utf8Cont d && utf8Cont e && isUtf8 r
      | _ => false
    else if b = 0xF4 then
      match rest with
      | c :: d :: e :: r =>
          decide (0x80 ≤ c) && decide (c ≤ 0x8F) && utf8Cont d && utf8Cont e && isUtf8 r
      | _ => false
    else false

/-! ## `proc/mod.rs`: ELF loading (`load_elf_image`,
`load_interpreter_image`) and `Process::new` -/

def PT_LOAD : Nat := 1
def PT_INTERP : Nat := 3
def PT_PHDR : Nat := 6
def ELF_MAGIC : List Nat := [0x7F, 0x45, 0x4C, 0x46]

structure Phdr where
  p_type : Nat
  p_offset : Nat
  p_vaddr : Nat
  p_filesz : Nat
  p_memsz : Nat
deriving DecidableEq, Repr

/-- A parsed view of an ELF64 file: the raw bytes (consulted for the magic and
the PT_INTERP string), whether `object::File::parse` accepts it, the header
fields the loader reads, and the program-header table. -/
structure ElfFile where
  bytes : List Nat
  parse_ok : Bool
  e_type : Nat
  e_entry : Nat
  e_phoff : Nat
  e_phentsize : Nat
  e_phnum : Nat
  phdrs : List Phdr
deriving Repr

/-- `trim_end_matches('\0')`. -/
def trimNuls (l : List Nat) : List Nat := (l.reverse.dropWhile (fun b => b = 0)).reverse

/-- PT_INTERP handling: take `p_filesz` bytes at `p_offset`, require them in
bounds and valid UTF-8, trim trailing NULs; otherwise keep the previous
value. -/
def extractInterp (f : ElfFile) (ph : Phdr) (prev : Option (List Nat)) :
    Option (List Nat) :=
  if ph.p_offset + ph.p_filesz ≤ f.bytes.length then
    let s := (f.bytes.drop ph.p_offset).take ph.p_filesz
    if isUtf8 s then some (trimNuls s) else prev
  else prev

/-- First program-header walk: record `phdr_va` from PT_PHDR and, when
capturing, the PT_INTERP string. -/
def scanPhdrs (f : ElfFile) (bias : Nat) (capture : Bool) :
    Nat × Option (List Nat) :=
  f.phdrs.foldl (fun acc ph =>
    if ph.p_type = PT_PHDR then (bias + ph.p_vaddr, acc.2)
    else if capture ∧ ph.p_type = PT_INTERP then (acc.1, extractInterp f ph acc.2)
    else acc) (0, none)

/-- Fallback `phdr_va`: the first PT_LOAD whose file range brackets the
program-header table. -/
def phdrVaFallback (f : ElfFile) (bias : Nat) : Nat :=
  let tblStart := f.e_phoff
  let tblEnd := f.e_phoff + f.e_phentsize * f.e_phnum
  match f.phdrs.find? (fun ph =>
      ph.p_type = PT_LOAD ∧ tblStart ≥ ph.p_offset ∧
      tblEnd ≤ ph.p_offset + ph.p_filesz) with
  | some ph => bias + ph.p_vaddr + (f.e_phoff - ph.p_offset)
  | none => 0

/-- The PT_LOAD placement loop (`obj.segments()` yields the PT_LOAD headers;
a segment whose file data is out of range is skipped, zero-sized segments are
skipped, every other segment is mapped writable+executable at
`bias + p_vaddr`, recorded, and bumps `max_end`).  `allocOk` is the
`alloc_pages` oracle; its failure aborts the load. -/
def loadSegsGo (f : ElfFile) (allocOk : AllocOracle) (bias : Nat) :
    List Phdr → Nat → List (Nat × Nat) → Except Unit (Nat × List (Nat × Nat))
  | [], maxEnd, regs => .ok (maxEnd, regs)
  | ph :: rest, maxEnd, regs =>
      if ph.p_type ≠ PT_LOAD then loadSegsGo f allocOk bias rest maxEnd regs
      else if ¬ (ph.p_offset + ph.p_filesz ≤ f.bytes.length) then
        loadSegsGo f allocOk bias rest maxEnd regs
      else if ph.p_memsz = 0 then loadSegsGo f allocOk bias rest maxEnd regs
      else
        let base := bias + ph.p_vaddr
        let segEnd := base + ph.p_memsz
        let maxEnd' := if segEnd > maxEnd then segEnd else maxEnd
        if allocOk base ph.p_memsz true true then
          loadSegsGo f allocOk bias rest maxEnd' (regs ++ [(base, ph.p_memsz)])
        else .error ()

structure LoadedImage where
  entry_point : Nat
  phdr_va : Nat
  phent : Nat
  phnum : Nat
  max_end : Nat
  load_base : Nat
  interp_path : Option (List Nat)
  regions : List (Nat × Nat)
deriving Repr

/-- `load_elf_image`: magic and parse checks, ET_DYN bias selection
(`e_type == 3` takes the hint, default `MAIN_DYN_LOAD_BASE`), the two header
walks and the PT_LOAD placement loop. -/
def loadElfImage (f : ElfFile) (allocOk : AllocOracle)
    (dynBaseHint : Option Nat) (captureInterp : Bool) :
    Except Unit LoadedImage :=
  if f.bytes.take 4 ≠ ELF_MAGIC then .error ()
  else if ¬ f.parse_ok then .error ()
  else
    let bias := if f.e_type = 3 then dynBaseHint.getD MAIN_DYN_LOAD_BASE else 0
    let scanned := scanPhdrs f bias captureInterp
    let pv := if scanned.1 = 0 then phdrVaFallback f bias else scanned.1
    match loadSegsGo f allocOk bias f.phdrs 0 [] with
    | .error () => .error ()
    | .ok (maxEnd, regs) =>
        .ok { entry_point := f.e_entry + bias, phdr_va := pv,
              phent := f.e_phentsize, phnum := f.e_phnum, max_end := maxEnd,
              load_base := bias, interp_path := scanned.2, regions := regs }

/-- `load_interpreter_image`: open and read the interpreter through the VFS
(`vfs` maps a path to the file it serves, `none` when open/read fails), then
load it with the interpreter base hint and no interpreter capture. -/
def loadInterpreterImage (vfs : List Nat → Option ElfFile)
    (allocOk : AllocOracle) (path : List Nat) : Except Unit LoadedImage :=
  match vfs path with
  | none => .error ()
  | some f => loadElfImage f allocOk (some INTERP_DYN_LOAD_BASE) false

structure NewProc where
  entry_point : Nat
  stack : BIOut
  regions : List (Nat × Nat)
  max_end : Nat
deriving Repr

/-- `Process::new`, restricted to image loading and initial-stack
construction: load the main image with `capture_interpreter = true`; when it
names an interpreter, load that with the interpreter base hint, switch the
process entry point to the interpreter's entry and remember its load base as
`AT_BASE`, while `aux_entry` stays the main image's entry; map the user
stack; build the initial stack. -/
def processNew (content : ElfFile) (args env : List (List Nat))
    (vfs : List Nat → Option ElfFile) (allocOk : AllocOracle) :
    Except Unit NewProc :=
  if content.bytes.take 4 ≠ ELF_MAGIC then .error ()
  else
    match loadElfImage content allocOk (some MAIN_DYN_LOAD_BASE) true with
    | .error () => .error ()
    | .ok mainImg =>
        let chained : Except Unit (Nat × Nat × Nat × List (Nat × Nat)) :=
          match mainImg.interp_path with
          | some p =>
              match loadInterpreterImage vfs allocOk p with
              | .error () => .error ()
              | .ok interpImg =>
                  .ok (interpImg.entry_point, interpImg.load_base,
                       if interpImg.max_end > mainImg.max_end then
                         interpImg.max_end else mainImg.max_end,
                       mainImg.regions ++ interpImg.regions)
          | none => .ok (mainImg.entry_point, 0, mainImg.max_end, mainImg.regions)
        match chained with
        | .error () => .error ()
        | .ok (entry, atBase, maxEnd, regs) =>
            let stackBase := USER_STACK_TOP - USER_STACK_SIZE
            let regs :=
              if allocOk stackBase USER_STACK_SIZE true false then
                regs ++ [(stackBase, USER_STACK_SIZE)]
              else regs
            let B := buildInitialStack USER_STACK_TOP mainImg.entry_point atBase
                       (some args) (some env) mainImg.phdr_va mainImg.phent
                       mainImg.phnum none none
            .ok { entry_point := entry, stack := B, regions := regs,
                  max_end := maxEnd }

/-! ## `syscall/utils.rs`: user-pointer helpers -/

inductive UserCopyError
  | Fault
  | TooLong
  | Utf8
deriving DecidableEq, Repr

/-- The source's `is_user_accessible` is a placeholder whose body is
`true` — its doc comment promises a canonicity / U-S-bit / present check that
is not implemented. -/
def isUserAccessible (_va : Nat) : Bool := true

/-- `read_user_byte`: guard with `is_user_accessible`, then
`read_volatile`.  `mem` is the machine's byte memory. -/
def readUserByte (mem : Nat → Nat) (addr : Nat) : Except UserCopyError Nat :=
  if ¬ isUserAccessible addr then .error .Fault
  else .ok (mem addr)

/-- The `for i in 0..max` loop of `copy_cstr_from_user` (fuel = remaining
iterations). -/
def copyCstrLoop (mem : Nat → Nat) (uptr : Nat) :
    Nat → Nat → List Nat → Except UserCopyError (List Nat)
  | 0, _, _ => .error .TooLong
  | fuel + 1, i, acc =>
      match readUserByte mem (uptr + i) with
      | .error e => .error e
      | .ok b =>
          if b = 0 then
            if isUtf8 acc then .ok acc else .error .Utf8
          else copyCstrLoop mem uptr fuel (i + 1) (acc ++ [b])

/-- `copy_cstr_from_user`. -/
def copyCstrFromUser (mem : Nat → Nat) (uptr maxLen : Nat) :
    Except UserCopyError (List Nat) :=
  copyCstrLoop mem uptr maxLen 0 []

/-- `is_canonical`: bits 63:47 all zero or all one. -/
def isCanonical (addr : Nat) : Bool :=
  let top := (addr >>> 47) &&& 0x1ffff
  decide (top = 0) || decide (top = 0x1ffff)

/-- `in_user_range`: non-NULL, canonical, `end` computed with `checked_add`
(overflow is `TooLong`), and `end - 1 <= USER_MAX`. -/
def inUserRange (addr len : Nat) : Except UserCopyError Unit :=
  if addr = 0 ∨ ¬ isCanonical addr then .error .Fault
  else if addr + len ≥ U64_MOD then .error .TooLong
  else if addr + len - 1 > USER_MAX then .error .Fault
  else .ok ()

/-- The `for i in 0..max_ptrs` loop of `copy_user_ptr_array`: validate each
pointer slot with `in_user_range`, read it (`mem64` gives the qword at an
address), stop at NULL, copy each string with `copy_cstr_from_user`. -/
def copyPtrArrayLoop (mem : Nat → Nat) (mem64 : Nat → Nat) (base maxStr : Nat) :
    Nat → Nat → List (List Nat) → Except UserCopyError (List (List Nat))
  | 0, _, acc => .ok acc
  | fuel + 1, i, acc =>
      let ptrAddr := base + i * 8
      if ptrAddr ≥ U64_MOD then .error .TooLong
      else
        match inUserRange ptrAddr 8 with
        | .error e => .error e
        | .ok () =>
            let uptr := mem64 ptrAddr
            if uptr = 0 then .ok acc
            else
              match copyCstrFromUser mem uptr maxStr with
              | .error e => .error e
              | .ok s => copyPtrArrayLoop mem mem64 base maxStr fuel (i + 1) (acc ++ [s])

/-- `copy_user_ptr_array`. -/
def copyUserPtrArray (mem : Nat → Nat) (mem64 : Nat → Nat)
    (base maxPtrs maxStr : Nat) : Except UserCopyError (List (List Nat)) :=
  copyPtrArrayLoop mem mem64 base maxStr maxPtrs 0 []

/-! ## Concrete fixtures used by witnesses -/

/-- A frame allocator that always succeeds. -/
def allocAlways : AllocOracle := fun _ _ _ _ => true

/-- A frame allocator that always fails. -/
def allocNever : AllocOracle := fun _ _ _ _ => false

/-- A tiny ET_EXEC main image whose only program header is a PT_INTERP naming
the one-byte path `"I"` (0x49), stored at file offset 4. -/
def mainElfC : ElfFile :=
  { bytes := [0x7F, 0x45, 0x4C, 0x46, 0x49], parse_ok := true, e_type := 2
    e_entry := 0x401000, e_phoff := 0, e_phentsize := 56, e_phnum := 1
    phdrs := [⟨PT_INTERP, 4, 0, 1, 0⟩] }

/-- A tiny ET_DYN interpreter image with no program headers. -/
def interpElfC : ElfFile :=
  { bytes := [0x7F, 0x45, 0x4C, 0x46], parse_ok := true, e_type := 3
    e_entry := 0x100, e_phoff := 0, e_phentsize := 56, e_phnum := 0
    phdrs := [] }

/-- A VFS serving `interpElfC` under the path `"I"`. -/
def vfsC : List Nat → Option ElfFile :=
  fun path => if path = [0x49] then some interpElfC else none

/-- The image `load_elf_image` produces for `mainElfC`. -/
def mainImgC : LoadedImage :=
  { entry_point := 0x401000, phdr_va := 0, phent := 56, phnum := 1, max_end := 0
    load_base := 0, interp_path := some [0x49], regions := [] }

/-- The image `load_elf_image` produces for `interpElfC` under the
interpreter base hint. -/
def interpImgC : LoadedImage :=
  { entry_point := 0x60000100, phdr_va := 0, phent := 56, phnum := 0, max_end := 0
    load_base := 0x60000000, interp_path := none, regions := [] }

/-- The process `Process::new` produces for `mainElfC` with args `["h"]` and
env `["A"]`. -/
def outC : NewProc :=
  { entry_point := 0x60000100
    stack := buildInitialStack USER_STACK_TOP 0x401000 0x60000000 (some [[104]])
      (some [[65]]) 0 56 1 none none
    regions := [(USER_STACK_TOP - USER_STACK_SIZE, USER_STACK_SIZE)]
    max_end := 0 }

/-! # Theorems -/

/-- C1: the claim requires `(RSP + 8) % 16 == 0` at user entry for all
argv/envp, with padding emitted below argc when needed.  Evaluating
`build_initial_stack` at `argv = ["a"]`, `envp = []` (the failing input):
the word at RSP is `argc = 1` as claimed, but the final RSP is exactly
`USER_STACK_TOP - 274` — every byte below the stack top is accounted for by
the strings, the 16 random bytes, the 14 auxv entries and the 4 pushed
qwords, so no padding qword was emitted — and `(RSP + 8) % 16 = 6 ≠ 0`.
The alignment invariant the source's own comment promises does not hold. -/
theorem c1_alignment_failing_eval :
    (buildInitialStack USER_STACK_TOP 0x401000 0 (some [[97]]) (some [])
        0x400040 56 1 none none).words.get? 0 = some 1 ∧
    (buildInitialStack USER_STACK_TOP 0x401000 0 (some [[97]]) (some [])
        0x400040 56 1 none none).rsp = USER_STACK_TOP - 274 ∧
    ((buildInitialStack USER_STACK_TOP 0x401000 0 (some [[97]]) (some [])
        0x400040 56 1 none none).rsp + 8) % 16 = 6 :=
  ⟨rfl, rfl, rfl⟩

/-- C3 counterexample: with `argv = ["x"]` and `envp = ["A", "BB"]`, the
qword in the envp[0] slot (word index 3: argc, argv[0], NULL, then envp)
is `USER_STACK_TOP - 3`, the address holding the *second* environment
string "BB", while the first environment string "A" sits at
`USER_STACK_TOP - 5`, which instead appears in the envp[1] slot: the envp
pointer array is in reverse order, refuting the claimed original order. -/
theorem c3_envp_reversed_cex :
    (buildInitialStack USER_STACK_TOP 0 0 (some [[120]])
        (some [[65], [66, 66]]) 0 56 0 none none).words.get? 3 =
      some (USER_STACK_TOP - 3) ∧
    readCStr (buildInitialStack USER_STACK_TOP 0 0 (some [[120]])
        (some [[65], [66, 66]]) 0 56 0 none none).bytes
      (USER_STACK_TOP - 3) 8 = [66, 66] ∧
    (buildInitialStack USER_STACK_TOP 0 0 (some [[120]])
        (some [[65], [66, 66]]) 0 56 0 none none).words.get? 4 =
      some (USER_STACK_TOP - 5) ∧
    readCStr (buildInitialStack USER_STACK_TOP 0 0 (some [[120]])
        (some [[65], [66, 66]]) 0 56 0 none none).bytes
      (USER_STACK_TOP - 5) 8 = [65] ∧
    USER_STACK_TOP - 3 ≠ USER_STACK_TOP - 5 :=
  ⟨rfl, rfl, rfl, rfl, by decide⟩

/-- C4: the claim requires every pointer dereferenced by the C-string
user-copy helper to be validated canonical and in `[1, 0x00007FFFFFFFFFFF]`
first, returning `Fault` otherwise.  `0xFFFF000000000000` is not canonical,
yet `is_user_accessible` (a stub whose body is `true`, contradicting its own
doc comment) lets `copy_cstr_from_user` dereference it and return the data
read from memory (`Ok ""` on a zeroed memory) instead of `Err(Fault)`. -/
theorem c4_cstr_unvalidated_deref_eval :
    isCanonical 0xFFFF000000000000 = false ∧
    isUserAccessible 0xFFFF000000000000 = true ∧
    copyCstrFromUser (fun _ => 0) 0xFFFF000000000000 4096 = .ok [] :=
  ⟨rfl, rfl, rfl⟩

/-! ## Arithmetic facts about `align_up` -/

theorem alignUp_mod (x : Nat) : alignUp x PAGE % PAGE = 0 := Nat.mul_mod_left _ _

theorem alignUp_ge (x : Nat) (h : x + PAGE - 1 < U64_MOD) : x ≤ alignUp x PAGE := by
  unfold PAGE U64_MOD at h
  unfold alignUp PAGE U64_MOD
  omega

theorem alignUp_le (x : Nat) : alignUp x PAGE ≤ U64_MOD - PAGE := by
  unfold alignUp PAGE U64_MOD
  omega

theorem alignUp_idem (x : Nat) : alignUp (alignUp x PAGE) PAGE = alignUp x PAGE := by
  have h := alignUp_le x
  have hm := alignUp_mod x
  unfold alignUp PAGE U64_MOD at *
  omega

theorem alignUp_eq_self (x : Nat) (hx : x % PAGE = 0) (h : x + PAGE - 1 < U64_MOD) :
    alignUp x PAGE = x := by
  unfold alignUp PAGE U64_MOD at *
  omega

theorem i64ofNat_of_lt (n : Nat) (h : n < 2 ^ 63) : i64ofNat n = (n : Int) := by
  unfold i64ofNat U64_MOD
  rw [Nat.mod_eq_of_lt (by omega), if_pos h]

/-! ## C5: `brk` -/

theorem set_brk_accepted (mm : ProcMM) (allocOk : AllocOracle) (x : Nat)
    (hal : alignUp x PAGE = x) (hge : mm.heap_start ≤ x)
    (halloc : x > mm.mapped_heap_end →
      allocOk mm.mapped_heap_end (x - mm.mapped_heap_end) true true = true) :
    (mm.set_brk allocOk x).1.brk_cur = x ∧ (mm.set_brk allocOk x).2 = .ok x := by
  simp only [ProcMM.set_brk, hal]
  split_ifs with h1 h2 h3 h4
  · omega
  · exact ⟨rfl, rfl⟩
  · exact absurd (halloc h2) h3
  · exact ⟨rfl, rfl⟩
  · exact ⟨rfl, rfl⟩

/-- C5 counterexample: starting from `ProcMM::new(0x1000)` and an accepted
`brk(0x3000)`, the break is `0x3000` and `heap_start = 0x1000`.  Calling
`brk(0xFFF)` — an `x` strictly below `heap_start` — must, per the claim,
return the unchanged break `0x3000` and leave it unmodified; the code instead
rounds `0xFFF` up to `0x1000 = heap_start`, treats it as a shrink, sets the
break to `0x1000` and returns `0x1000`. -/
theorem c5_brk_below_heapstart_cex :
    (brkSys (ProcMM.new 0x1000) allocAlways 0x3000).2 = 0x3000 ∧
    ((brkSys (ProcMM.new 0x1000) allocAlways 0x3000).1).brk_cur = 0x3000 ∧
    ((brkSys (ProcMM.new 0x1000) allocAlways 0x3000).1).heap_start = 0x1000 ∧
    (0xFFF : Nat) < 0x1000 ∧
    (brkSys ((brkSys (ProcMM.new 0x1000) allocAlways 0x3000).1) allocAlways 0xFFF).2
      = 0x1000 ∧
    (brkSys ((brkSys (ProcMM.new 0x1000) allocAlways 0x3000).1) allocAlways 0xFFF).1.brk_cur
      = 0x1000 ∧
    (0x1000 : Int) ≠ 0x3000 :=
  ⟨rfl, rfl, rfl, by decide, rfl, rfl, by decide⟩

/-- C5 (amended): `brk(0)` reports the current break and changes nothing;
`brk(x)` for page-aligned `x ≥ heap_start` (with growth allocation
succeeding) sets the break to exactly `x`, and a following `brk(0)` returns
`x`; and when the request fails — growth allocation failure, or `x` rounding
up to a page boundary *below* `heap_start` — `brk` returns the unchanged
current break, leaving the recorded break unmodified.  (An `x` less than
`heap_start` but inside the page just beneath it rounds up to `heap_start`
and is treated as an accepted shrink, which is where the original claim
fails.) -/
theorem c5_brk_amended (mm : ProcMM) (allocOk : AllocOracle) (x : Nat) :
    brkSys mm allocOk 0 = (mm, i64ofNat mm.brk_cur) ∧
    (x % PAGE = 0 → x ≠ 0 → x < U64_MOD → mm.heap_start ≤ x →
      (x > mm.mapped_heap_end →
        allocOk mm.mapped_heap_end (x - mm.mapped_heap_end) true true = true) →
      (brkSys mm allocOk x).2 = i64ofNat x ∧
      (brkSys mm allocOk x).1.brk_cur = x ∧
      (brkSys (brkSys mm allocOk x).1 allocOk 0).2 = i64ofNat x) ∧
    (x ≠ 0 → alignUp x PAGE < mm.heap_start →
      brkSys mm allocOk x = (mm, i64ofNat mm.brk_cur)) ∧
    (x ≠ 0 → mm.heap_start ≤ mm.mapped_heap_end →
      alignUp x PAGE > mm.mapped_heap_end →
      allocOk mm.mapped_heap_end (alignUp x PAGE - mm.mapped_heap_end) true true = false →
      (brkSys mm allocOk x).2 = i64ofNat mm.brk_cur ∧
      (brkSys mm allocOk x).1.brk_cur = mm.brk_cur) := by
  refine ⟨rfl, ?_, ?_, ?_⟩
  · intro hmod hne hlt hge halloc
    have hal : alignUp x PAGE = x := alignUp_eq_self x hmod (by unfold PAGE U64_MOD at *; omega)
    have hs := set_brk_accepted mm allocOk x hal hge halloc
    rcases he : mm.set_brk allocOk x with ⟨mm', r⟩
    rw [he] at hs
    obtain ⟨hb, hv⟩ := hs
    simp only at hb hv
    subst hv
    have h12 : (brkSys mm allocOk x).1 = mm' ∧ (brkSys mm allocOk x).2 = i64ofNat x := by
      unfold brkSys
      rw [if_neg hne, he]
      exact ⟨rfl, rfl⟩
    refine ⟨h12.2, by rw [h12.1]; exact hb, ?_⟩
    rw [h12.1]
    simp [brkSys, ProcMM.curr_brk, hb]
  · intro hne hlo
    unfold brkSys ProcMM.set_brk
    rw [if_neg hne, if_pos hlo]
  · intro hne hinv hhi hfail
    unfold brkSys ProcMM.set_brk
    rw [if_neg hne, if_neg (by omega), if_pos hhi, hfail]
    exact ⟨rfl, rfl⟩

/-- C5 witness: the amended theorem applied at `ProcMM::new(0x1000)`, an
always-succeeding allocator, and `x = 0x3000`. -/
theorem c5_brk_amended_witness :
    ((0x3000 : Nat) % PAGE = 0 ∧ (ProcMM.new 0x1000).heap_start ≤ 0x3000) ∧
    (brkSys (ProcMM.new 0x1000) allocAlways 0x3000).2 = i64ofNat 0x3000 ∧
    (brkSys (ProcMM.new 0x1000) allocAlways 0x3000).1.brk_cur = 0x3000 ∧
    (brkSys ((brkSys (ProcMM.new 0x1000) allocAlways 0x3000).1) allocAlways 0).2
      = i64ofNat 0x3000 :=
  ⟨⟨by decide, by decide⟩,
    (c5_brk_amended (ProcMM.new 0x1000) allocAlways 0x3000).2.1
      (by decide) (by decide) (by decide) (by decide) (fun _ => rfl)⟩

/-! ## C6 / C7: `mmap` and `munmap` -/

theorem i64ofNat_nonneg (n : Nat) (hn : n < U64_MOD) (h : 0 ≤ i64ofNat n) :
    n < 2 ^ 63 ∧ i64ofNat n = (n : Int) := by
  by_cases hb : n < 2 ^ 63
  · exact ⟨hb, i64ofNat_of_lt n hb⟩
  · exfalso
    unfold i64ofNat U64_MOD at h
    rw [Nat.mod_eq_of_lt (by unfold U64_MOD at hn; omega), if_neg hb] at h
    unfold U64_MOD at hn
    omega

theorem ensure_regions (mm : ProcMM) :
    (mm.ensure_mmap_base).mmap_regions = mm.mmap_regions := by
  unfold ProcMM.ensure_mmap_base
  split_ifs <;> rfl

theorem ensure_hint_lower (mm : ProcMM)
    (hinv : mm.mmap_base_hint = 0 ∨ USER_LOWER ≤ mm.mmap_base_hint)
    (hub : mm.mmap_base_hint ≤ USER_UPPER)
    (hmhe : mm.mapped_heap_end ≤ USER_UPPER) :
    USER_LOWER ≤ (mm.ensure_mmap_base).mmap_base_hint ∧
    (mm.ensure_mmap_base).mmap_base_hint ≤ U64_MOD - PAGE := by
  unfold ProcMM.ensure_mmap_base
  by_cases h0 : mm.mmap_base_hint = 0
  · rw [if_pos h0]
    refine ⟨?_, ?_⟩
    · show USER_LOWER ≤ alignUp (max mm.mapped_heap_end USER_LOWER) PAGE
      have hb : max mm.mapped_heap_end USER_LOWER + PAGE - 1 < U64_MOD := by
        unfold USER_LOWER USER_UPPER PAGE U64_MOD at *
        omega
      have := alignUp_ge (max mm.mapped_heap_end USER_LOWER) hb
      have := le_max_right mm.mapped_heap_end USER_LOWER
      omega
    · exact alignUp_le _
  · rw [if_neg h0]
    have hlow : USER_LOWER ≤ mm.mmap_base_hint := hinv.resolve_left h0
    refine ⟨hlow, ?_⟩
    unfold USER_UPPER U64_MOD PAGE at *
    omega

theorem reserve_spec (mm : ProcMM) (len : Nat) (mm' : ProcMM) (va : Nat)
    (h : mm.reserve_mmap_range len = some (mm', va)) :
    va % PAGE = 0 ∧ va + alignUp len PAGE < USER_UPPER ∧
    mm'.mmap_regions = mm.mmap_regions ∧
    ((mm.mmap_base_hint = 0 ∨ USER_LOWER ≤ mm.mmap_base_hint) →
      mm.mmap_base_hint ≤ USER_UPPER → mm.mapped_heap_end ≤ USER_UPPER →
      USER_LOWER ≤ va) := by
  simp only [ProcMM.reserve_mmap_range] at h
  split_ifs at h with hcap
  have h' := Option.some.inj h
  have hmm' := congrArg Prod.fst h'
  have hva := congrArg Prod.snd h'
  simp only at hmm' hva
  subst hva
  refine ⟨alignUp_mod _, by omega, ?_, ?_⟩
  · rw [← hmm']
    exact ensure_regions mm
  · intro hinv hub hmhe
    obtain ⟨hl, hu⟩ := ensure_hint_lower mm hinv hub hmhe
    have hb : (mm.ensure_mmap_base).mmap_base_hint + PAGE - 1 < U64_MOD := by
      unfold PAGE U64_MOD at *
      omega
    have := alignUp_ge (mm.ensure_mmap_base).mmap_base_hint hb
    omega

theorem mmapFinish_success (mm : ProcMM) (allocOk : AllocOracle) (fdOpen : Int → Bool)
    (nodeMmap : Nat → Nat → Except Int Nat) (va len prot flags : Nat) (fd : Int)
    (hva : va < U64_MOD)
    (hcode : ∀ a b c, nodeMmap a b = .error c → c < 0)
    (h : 0 ≤ (mmapFinish mm allocOk fdOpen nodeMmap va len prot flags fd).2) :
    ∃ kind, mmapFinish mm allocOk fdOpen nodeMmap va len prot flags fd
        = (mm.track_mmap va len kind, (va : Int)) ∧ va ≠ 0 ∧ va < 2 ^ 63 := by
  by_cases h0 : va = 0
  · exfalso
    simp [mmapFinish, h0, EINVAL] at h
  by_cases h5 : flags &&& MAP_ANONYMOUS = 0 ∧ fd ≠ -1
  · by_cases h6 : fd < 3
    · exfalso
      simp [mmapFinish, h0, h5, h6, EBADF] at h
    by_cases h7 : fdOpen fd = false
    · exfalso
      simp [mmapFinish, h0, h5, h6, h7, EBADF] at h
    rcases h8 : nodeMmap va len with c | mapped
    · exfalso
      have hlt := hcode va len c h8
      simp [mmapFinish, h0, h5, h6, h7, h8] at h
      omega
    · by_cases h9 : mapped = va
      · have hret : mmapFinish mm allocOk fdOpen nodeMmap va len prot flags fd
            = (mm.track_mmap va len .Shared, i64ofNat va) := by
          simp [mmapFinish, h0, h5, h6, h7, h8, h9]
        rw [hret] at h
        obtain ⟨h63, heq⟩ := i64ofNat_nonneg va hva h
        exact ⟨.Shared, by rw [hret, heq], h0, h63⟩
      · exfalso
        simp [mmapFinish, h0, h5, h6, h7, h8, h9, EINVAL] at h
  · by_cases h10 : allocOk va len (prot &&& PROT_WRITE != 0)
        (prot &&& PROT_EXEC != 0) = true
    · have hret : mmapFinish mm allocOk fdOpen nodeMmap va len prot flags fd
          = (mm.track_mmap va len .Owned, i64ofNat va) := by
        simp [mmapFinish, h0, h5, h10]
      rw [hret] at h
      obtain ⟨h63, heq⟩ := i64ofNat_nonneg va hva h
      exact ⟨.Owned, by rw [hret, heq], h0, h63⟩
    · exfalso
      simp [mmapFinish, h0, h5, h10, ENOMEM] at h

/-- Shape of any successful `mmap` call: the returned VA is non-zero and
page-aligned, the page-rounded length is tracked as a fresh region, and the
VA is the caller's `addr` under `MAP_FIXED` or the bump cursor's choice
otherwise. -/
theorem mmapSys_success (mm : ProcMM) (allocOk : AllocOracle) (fdOpen : Int → Bool)
    (nodeMmap : Nat → Nat → Except Int Nat) (addr size prot flags : Nat)
    (fd : Int) (offset : Nat)
    (haddr : addr < U64_MOD)
    (hcode : ∀ a b c, nodeMmap a b = .error c → c < 0)
    (h : 0 ≤ (mmapSys mm allocOk fdOpen nodeMmap addr size prot flags fd offset).2) :
    ∃ (va : Nat) (kind : MmapKind) (mmMid : ProcMM),
      mmMid.mmap_regions = mm.mmap_regions ∧
      mmapSys mm allocOk fdOpen nodeMmap addr size prot flags fd offset
        = (mmMid.track_mmap va (alignUp size PAGE) kind, (va : Int)) ∧
      va ≠ 0 ∧ va % PAGE = 0 ∧ va < 2 ^ 63 ∧ size ≠ 0 ∧ offset % PAGE = 0 ∧
      (flags &&& MAP_FIXED ≠ 0 → va = addr ∧ mmMid = mm) ∧
      (flags &&& MAP_FIXED = 0 →
        mm.reserve_mmap_range (alignUp size PAGE) = some (mmMid, va)) := by
  by_cases h1 : size = 0
  · exfalso
    simp [mmapSys, h1, EINVAL] at h
  by_cases h2 : offset % PAGE = 0
  case neg =>
    exfalso
    simp [mmapSys, h1, h2, EINVAL] at h
  case pos =>
  by_cases h3 : flags &&& MAP_FIXED = 0
  · rcases hr : mm.reserve_mmap_range (alignUp size PAGE) with _ | ⟨mm1, va⟩
    · exfalso
      simp [mmapSys, mmapPlace, h1, h2, h3, hr, ENOMEM] at h
    · have heval : mmapSys mm allocOk fdOpen nodeMmap addr size prot flags fd offset
          = mmapFinish mm1 allocOk fdOpen nodeMmap va (alignUp size PAGE) prot flags fd := by
        simp [mmapSys, mmapPlace, h1, h2, h3, hr]
      rw [heval] at h
      have hspec := reserve_spec mm _ _ _ hr
      have hva : va < U64_MOD := by
        have := hspec.2.1
        unfold USER_UPPER U64_MOD at *
        omega
      obtain ⟨kind, hfin, hva0, h63⟩ :=
        mmapFinish_success mm1 allocOk fdOpen nodeMmap va (alignUp size PAGE) prot flags fd
          hva hcode h
      refine ⟨va, kind, mm1, hspec.2.2.1, by rw [heval, hfin], hva0, hspec.1, h63, h1, h2,
        fun hF => absurd h3 hF, fun _ => rfl⟩
  · by_cases h4 : addr = 0 ∨ addr % PAGE ≠ 0
    · exfalso
      simp [mmapSys, mmapPlace, h1, h2, h3, h4, EINVAL] at h
    · have heval : mmapSys mm allocOk fdOpen nodeMmap addr size prot flags fd offset
          = mmapFinish mm allocOk fdOpen nodeMmap addr (alignUp size PAGE) prot flags fd := by
        simp [mmapSys, mmapPlace, h1, h2, h3, h4]
      rw [heval] at h
      obtain ⟨kind, hfin, hva0, h63⟩ :=
        mmapFinish_success mm allocOk fdOpen nodeMmap addr (alignUp size PAGE) prot flags fd
          haddr hcode h
      push_neg at h4
      exact ⟨addr, kind, mm, rfl, by rw [heval, hfin], h4.1, h4.2, h63, h1, h2,
        fun _ => ⟨rfl, rfl⟩, fun hF0 => absurd hF0 h3⟩

/-- C6 counterexample: start from `ProcMM::new(0x500000)` (an ET_EXEC-style
low heap).  A first anonymous mmap seeds the bump cursor at
`max(mapped_heap_end, 0x40000000) = 0x40000000` and returns it; `brk` then
grows the heap so `mapped_heap_end = 0x50000000`; the next anonymous mmap
returns the bump cursor `0x40001000`, which is *below*
`max(mapped_heap_end, 0x4000_0000) = 0x50000000`, refuting the claimed
per-call lower bound. -/
theorem c6_mmap_cursor_below_heap_cex :
    (mmapSys (ProcMM.new 0x500000) allocAlways (fun _ => false) (fun _ _ => .ok 0)
        0 0x1000 3 0x22 (-1) 0).2 = 0x40000000 ∧
    (brkSys (mmapSys (ProcMM.new 0x500000) allocAlways (fun _ => false) (fun _ _ => .ok 0)
        0 0x1000 3 0x22 (-1) 0).1 allocAlways 0x50000000).1.mapped_heap_end = 0x50000000 ∧
    (mmapSys (brkSys (mmapSys (ProcMM.new 0x500000) allocAlways (fun _ => false)
        (fun _ _ => .ok 0) 0 0x1000 3 0x22 (-1) 0).1 allocAlways 0x50000000).1
        allocAlways (fun _ => false) (fun _ _ => .ok 0) 0 0x1000 3 0x22 (-1) 0).2
      = 0x40001000 ∧
    (0x40001000 : Nat) < max 0x50000000 0x40000000 :=
  ⟨rfl, rfl, rfl, by decide⟩

/-- C6 (amended): every mmap request's length is page-rounded and tracked as
such; with `MAP_FIXED`, a zero or unaligned `addr` yields `-EINVAL` and a
successful call returns `addr` itself; without `MAP_FIXED` a successful call
returns a page-aligned base at or above `0x4000_0000` whose range ends below
`0x7FFF_F000_0000` — the bump cursor is seeded at
`max(mapped_heap_end, 0x4000_0000)` only at its first use, so a base at or
above the *current* `mapped_heap_end` is not guaranteed once the heap has
grown past the cursor — and cursor exhaustion yields `-ENOMEM`. -/
theorem c6_mmap_amended (mm : ProcMM) (allocOk : AllocOracle) (fdOpen : Int → Bool)
    (nodeMmap : Nat → Nat → Except Int Nat) (addr size prot flags : Nat)
    (fd : Int) (offset : Nat)
    (haddr : addr < U64_MOD)
    (hcode : ∀ a b c, nodeMmap a b = .error c → c < 0) :
    (flags &&& MAP_FIXED ≠ 0 → (addr = 0 ∨ addr % PAGE ≠ 0) →
      (mmapSys mm allocOk fdOpen nodeMmap addr size prot flags fd offset).2 = -EINVAL) ∧
    (flags &&& MAP_FIXED ≠ 0 →
      0 ≤ (mmapSys mm allocOk fdOpen nodeMmap addr size prot flags fd offset).2 →
      (mmapSys mm allocOk fdOpen nodeMmap addr size prot flags fd offset).2 = (addr : Int)) ∧
    (0 ≤ (mmapSys mm allocOk fdOpen nodeMmap addr size prot flags fd offset).2 →
      ∃ (va : Nat) (kind : MmapKind),
        (mmapSys mm allocOk fdOpen nodeMmap addr size prot flags fd offset).2 = (va : Int) ∧
        (mmapSys mm allocOk fdOpen nodeMmap addr size prot flags fd offset).1.mmap_regions
          = mm.mmap_regions ++ [⟨va, alignUp size PAGE, kind⟩] ∧
        va % PAGE = 0 ∧
        (flags &&& MAP_FIXED = 0 →
          ((mm.mmap_base_hint = 0 ∨ USER_LOWER ≤ mm.mmap_base_hint) →
            mm.mmap_base_hint ≤ USER_UPPER → mm.mapped_heap_end ≤ USER_UPPER →
            USER_LOWER ≤ va) ∧
          va + alignUp size PAGE < USER_UPPER)) ∧
    (flags &&& MAP_FIXED = 0 → size ≠ 0 → offset % PAGE = 0 →
      mm.reserve_mmap_range (alignUp size PAGE) = none →
      (mmapSys mm allocOk fdOpen nodeMmap addr size prot flags fd offset).2 = -ENOMEM) := by
  refine ⟨?_, ?_, ?_, ?_⟩
  · intro hF hbad
    by_cases h1 : size = 0
    · simp [mmapSys, h1]
    by_cases h2 : offset % PAGE = 0
    · simp [mmapSys, mmapPlace, h1, h2, hF, hbad]
    · simp [mmapSys, h1, h2]
  · intro hF h
    obtain ⟨va, kind, mmMid, hreg, heq, hva0, hal, h63, hsz, hoff, hFix, hNF⟩ :=
      mmapSys_success mm allocOk fdOpen nodeMmap addr size prot flags fd offset haddr hcode h
    rw [heq]
    exact congrArg _ (hFix hF).1
  · intro h
    obtain ⟨va, kind, mmMid, hreg, heq, hva0, hal, h63, hsz, hoff, hFix, hNF⟩ :=
      mmapSys_success mm allocOk fdOpen nodeMmap addr size prot flags fd offset haddr hcode h
    refine ⟨va, kind, by rw [heq], ?_, hal, ?_⟩
    · rw [heq]
      simp [ProcMM.track_mmap, hreg]
    · intro hF0
      have hr := hNF hF0
      have hspec := reserve_spec mm _ _ _ hr
      rw [alignUp_idem] at hspec
      exact ⟨hspec.2.2.2, hspec.2.1⟩
  · intro hF0 h1 h2 hr
    simp [mmapSys, mmapPlace, h1, h2, hF0, hr]

/-- C6 witness: the amended theorem's success clause applied at
`ProcMM::new(0)` with an always-succeeding allocator and an anonymous
private mapping of one page. -/
theorem c6_mmap_amended_witness :
    0 ≤ (mmapSys (ProcMM.new 0) allocAlways (fun _ => false) (fun _ _ => .ok 0)
        0 0x1000 3 0x22 (-1) 0).2 ∧
    (∃ (va : Nat) (kind : MmapKind),
      (mmapSys (ProcMM.new 0) allocAlways (fun _ => false) (fun _ _ => .ok 0)
          0 0x1000 3 0x22 (-1) 0).2 = (va : Int) ∧
      (mmapSys (ProcMM.new 0) allocAlways (fun _ => false) (fun _ _ => .ok 0)
          0 0x1000 3 0x22 (-1) 0).1.mmap_regions
        = (ProcMM.new 0).mmap_regions ++ [⟨va, alignUp 0x1000 PAGE, kind⟩] ∧
      va % PAGE = 0 ∧
      ((0x22 : Nat) &&& MAP_FIXED = 0 →
        (((ProcMM.new 0).mmap_base_hint = 0 ∨ USER_LOWER ≤ (ProcMM.new 0).mmap_base_hint) →
          (ProcMM.new 0).mmap_base_hint ≤ USER_UPPER →
          (ProcMM.new 0).mapped_heap_end ≤ USER_UPPER →
          USER_LOWER ≤ va) ∧
        va + alignUp 0x1000 PAGE < USER_UPPER)) :=
  ⟨by decide,
    (c6_mmap_amended (ProcMM.new 0) allocAlways (fun _ => false) (fun _ _ => .ok 0)
        0 0x1000 3 0x22 (-1) 0 (by decide) (fun _ _ _ h => nomatch h)).2.2.1 (by decide)⟩

theorem removeRegion_append (b n : Nat) (k : MmapKind) (l : List MmapRegion) :
    ∃ l' k', removeRegion b n (l ++ [⟨b, n, k⟩]) = some (l', k') := by
  induction l with
  | nil => exact ⟨[], k, by simp [removeRegion]⟩
  | cons r rest ih =>
      by_cases hm : r.base = b ∧ r.len = n
      · exact ⟨rest ++ [⟨b, n, k⟩], r.kind, by simp [removeRegion, hm]⟩
      · obtain ⟨l', k', hl⟩ := ih
        exact ⟨r :: l', k', by simp [removeRegion, hm, hl]⟩

/-- After a region `(va, len)` has been tracked, `munmap(va, size)` with the
same (page-rounding) size finds a matching region and returns 0 whenever the
underlying page-table operation succeeds. -/
theorem munmap_after_track (mm : ProcMM) (deallocOk unmapOk : Nat → Nat → Bool)
    (va size len : Nat) (kind : MmapKind) (regs0 : List MmapRegion)
    (hregs : mm.mmap_regions = regs0 ++ [⟨va, len, kind⟩])
    (hsz : size ≠ 0) (hal : va % PAGE = 0) (hlen : alignUp size PAGE = len)
    (hde : deallocOk va len = true) (hun : unmapOk va len = true) :
    (munmapSys mm deallocOk unmapOk va size).2 = 0 := by
  obtain ⟨l', k', hl⟩ := removeRegion_append va len kind regs0
  have hrem : removeRegion va len mm.mmap_regions = some (l', k') := by
    rw [hregs]
    exact hl
  cases k' <;>
    simp [munmapSys, ProcMM.remove_mmap, hrem, hsz, hal, hlen, hde, hun]

/-- Evaluation of an anonymous `MAP_FIXED | MAP_ANONYMOUS | MAP_PRIVATE`
mmap at a valid address with a succeeding allocator. -/
theorem mmapSys_fixed_anon (mm : ProcMM) (allocOk : AllocOracle) (fdOpen : Int → Bool)
    (nodeMmap : Nat → Nat → Except Int Nat) (addr size prot offset : Nat)
    (hsz : size ≠ 0) (hoff : offset % PAGE = 0) (h0 : addr ≠ 0) (hal : addr % PAGE = 0)
    (halloc : ∀ w x : Bool, allocOk addr (alignUp size PAGE) w x = true) :
    mmapSys mm allocOk fdOpen nodeMmap addr size prot
        (MAP_FIXED ||| MAP_ANONYMOUS ||| MAP_PRIVATE) (-1) offset
      = (mm.track_mmap addr (alignUp size PAGE) .Owned, i64ofNat addr) := by
  have hF : (MAP_FIXED ||| MAP_ANONYMOUS ||| MAP_PRIVATE) &&& MAP_FIXED ≠ 0 := by decide
  have hA : ¬((MAP_FIXED ||| MAP_ANONYMOUS ||| MAP_PRIVATE) &&& MAP_ANONYMOUS = 0 ∧
      (-1 : Int) ≠ -1) := by simp
  simp [mmapSys, mmapPlace, mmapFinish, hsz, hoff, h0, hal, hF, hA, halloc]

/-- C7: for every successful `mmap` (any flavor — `MAP_FIXED` or bump-cursor,
anonymous or file-backed), `munmap` at the returned address with the original
size finds the tracked page-rounded region and returns 0, and a subsequent
`MAP_FIXED | MAP_ANONYMOUS | MAP_PRIVATE` mmap at `(A, size)` succeeds and
returns `A` again. -/
theorem c7_mmap_munmap_roundtrip (mm : ProcMM) (allocOk allocOk2 : AllocOracle)
    (fdOpen : Int → Bool) (nodeMmap : Nat → Nat → Except Int Nat)
    (deallocOk unmapOk : Nat → Nat → Bool)
    (addr size prot prot2 flags : Nat) (fd : Int) (offset : Nat)
    (haddr : addr < U64_MOD)
    (hcode : ∀ a b c, nodeMmap a b = .error c → c < 0)
    (hret : 0 ≤ (mmapSys mm allocOk fdOpen nodeMmap addr size prot flags fd offset).2) :
    ∃ A : Nat,
      (mmapSys mm allocOk fdOpen nodeMmap addr size prot flags fd offset).2 = (A : Int) ∧
      (deallocOk A (alignUp size PAGE) = true → unmapOk A (alignUp size PAGE) = true →
        (munmapSys (mmapSys mm allocOk fdOpen nodeMmap addr size prot flags fd offset).1
            deallocOk unmapOk A size).2 = 0 ∧
        ((∀ w x : Bool, allocOk2 A (alignUp size PAGE) w x = true) →
          (mmapSys (munmapSys
              (mmapSys mm allocOk fdOpen nodeMmap addr size prot flags fd offset).1
              deallocOk unmapOk A size).1 allocOk2 fdOpen nodeMmap A size prot2
              (MAP_FIXED ||| MAP_ANONYMOUS ||| MAP_PRIVATE) (-1) 0).2 = (A : Int))) := by
  obtain ⟨va, kind, mmMid, hreg, heq, hva0, hal, h63, hsz, hoff, hFix, hNF⟩ :=
    mmapSys_success mm allocOk fdOpen nodeMmap addr size prot flags fd offset haddr hcode hret
  have hst : (mmapSys mm allocOk fdOpen nodeMmap addr size prot flags fd offset).1
      = mmMid.track_mmap va (alignUp size PAGE) kind := congrArg Prod.fst heq
  refine ⟨va, by rw [heq], fun hde hun => ⟨?_, fun halloc2 => ?_⟩⟩
  · rw [hst]
    exact munmap_after_track _ deallocOk unmapOk va size (alignUp size PAGE) kind
      mmMid.mmap_regions (by simp [ProcMM.track_mmap]) hsz hal rfl hde hun
  · rw [mmapSys_fixed_anon _ allocOk2 fdOpen nodeMmap va size prot2 0 hsz (by decide)
      hva0 hal halloc2]
    exact i64ofNat_of_lt va h63

/-- C7 witness: the roundtrip applied to a concrete one-page anonymous
mapping from a fresh `ProcMM`. -/
theorem c7_mmap_munmap_roundtrip_witness :
    0 ≤ (mmapSys (ProcMM.new 0) allocAlways (fun _ => false) (fun _ _ => .ok 0)
        0 0x1000 3 0x22 (-1) 0).2 ∧
    (∃ A : Nat,
      (mmapSys (ProcMM.new 0) allocAlways (fun _ => false) (fun _ _ => .ok 0)
          0 0x1000 3 0x22 (-1) 0).2 = (A : Int) ∧
      ((fun _ _ => true : Nat → Nat → Bool) A (alignUp 0x1000 PAGE) = true →
        (fun _ _ => true : Nat → Nat → Bool) A (alignUp 0x1000 PAGE) = true →
        (munmapSys (mmapSys (ProcMM.new 0) allocAlways (fun _ => false) (fun _ _ => .ok 0)
            0 0x1000 3 0x22 (-1) 0).1 (fun _ _ => true) (fun _ _ => true) A 0x1000).2 = 0 ∧
        ((∀ w x : Bool, allocAlways A (alignUp 0x1000 PAGE) w x = true) →
          (mmapSys (munmapSys
              (mmapSys (ProcMM.new 0) allocAlways (fun _ => false) (fun _ _ => .ok 0)
                0 0x1000 3 0x22 (-1) 0).1 (fun _ _ => true) (fun _ _ => true) A 0x1000).1
              allocAlways (fun _ => false) (fun _ _ => .ok 0) A 0x1000 7
              (MAP_FIXED ||| MAP_ANONYMOUS ||| MAP_PRIVATE) (-1) 0).2 = (A : Int)))) :=
  ⟨by decide,
    c7_mmap_munmap_roundtrip (ProcMM.new 0) allocAlways allocAlways (fun _ => false)
      (fun _ _ => .ok 0) (fun _ _ => true) (fun _ _ => true) 0 0x1000 3 7 0x22 (-1) 0
      (by decide) (fun _ _ _ h => nomatch h) (by decide)⟩

/-! ## C8: fd allocation (minimum-fd rule) -/

theorem slotFree_of_length_le {α : Type} (t : List (Option α)) (i : Nat)
    (h : t.length ≤ i) : slotFree t i = true := by
  unfold slotFree
  rw [List.get?_eq_none.mpr h]

theorem scanInstall_spec {α : Type} (t : List (Option α)) (e : α) :
    ∀ (n idx : Nat), t.length - idx ≤ n →
      (∀ t' j, scanInstall t e idx = some (t', j) →
        idx ≤ j ∧ j < t.length ∧ slotFree t j = true ∧ t' = t.set j (some e) ∧
        ∀ i, idx ≤ i → i < j → slotFree t i = false) ∧
      (scanInstall t e idx = none → ∀ i, idx ≤ i → i < t.length → slotFree t i = false) := by
  intro n
  induction n with
  | zero =>
      intro idx hn
      have hge : t.length ≤ idx := by omega
      have hnone : scanInstall t e idx = none := by
        rw [scanInstall]
        rw [dif_neg (by omega)]
      refine ⟨fun t' j h => ?_, fun _ i h1 h2 => ?_⟩
      · rw [hnone] at h
        cases h
      · omega
  | succ n ih =>
      intro idx hn
      by_cases hlt : idx < t.length
      · have hun : scanInstall t e idx =
            if (t.get ⟨idx, hlt⟩).isNone then some (t.set idx (some e), idx)
            else scanInstall t e (idx + 1) := by
          rw [scanInstall]
          rw [dif_pos hlt]
        by_cases hfree : (t.get ⟨idx, hlt⟩).isNone
        · have hslot : slotFree t idx = true := by
            unfold slotFree
            rw [List.get?_eq_get hlt]
            rcases hget : t.get ⟨idx, hlt⟩ with _ | v
            · rfl
            · rw [hget] at hfree
              cases hfree
          refine ⟨fun t' j h => ?_, fun h => ?_⟩
          · rw [hun, if_pos hfree] at h
            have hj := congrArg (fun r => (Option.map Prod.snd r)) h
            simp only [Option.map_some] at hj
            have ht' := congrArg (fun r => (Option.map Prod.fst r)) h
            simp only [Option.map_some] at ht'
            obtain hj' : idx = j := by injection hj
            obtain ht'' : t.set idx (some e) = t' := by injection ht'
            subst hj'
            exact ⟨le_refl _, hlt, hslot, ht''.symm, fun i h1 h2 => by omega⟩
          · rw [hun, if_pos hfree] at h
            cases h
        · have hocc : slotFree t idx = false := by
            unfold slotFree
            rw [List.get?_eq_get hlt]
            rcases hget : t.get ⟨idx, hlt⟩ with _ | v
            · rw [hget] at hfree
              exact absurd rfl hfree
            · rfl
          have ih' := ih (idx + 1) (by omega)
          refine ⟨fun t' j h => ?_, fun h i h1 h2 => ?_⟩
          · rw [hun, if_neg hfree] at h
            obtain ⟨ha, hb, hc, hd, hmin⟩ := ih'.1 t' j h
            refine ⟨by omega, hb, hc, hd, fun i h1 h2 => ?_⟩
            by_cases hi : i = idx
            · rw [hi]
              exact hocc
            · exact hmin i (by omega) h2
          · rw [hun, if_neg hfree] at h
            by_cases hi : i = idx
            · rw [hi]
              exact hocc
            · exact ih'.2 h i (by omega) h2
      · have hnone : scanInstall t e idx = none := by
          rw [scanInstall]
          rw [dif_neg hlt]
        refine ⟨fun t' j h => ?_, fun _ i h1 h2 => ?_⟩
        · rw [hnone] at h
          cases h
        · omega

/-- `install_fd_entry` always yields the smallest free fd at or above
`max(min_fd, 3)`. -/
theorem installFdEntry_min {α : Type} (t : List (Option α)) (e : α) (minFd : Int)
    (h0 : 0 ≤ minFd) :
    ∃ t' fd, installFdEntry t e minFd = .ok (t', fd) ∧
      3 ≤ fd ∧ minFd ≤ (fd : Int) ∧ slotFree t (fd - 3) = true ∧
      ∀ g : Nat, 3 ≤ g → minFd ≤ (g : Int) → g < fd → slotFree t (g - 3) = false := by
  have hnl : ¬ minFd < 0 := by omega
  rcases hscan : scanInstall t e (minFd - 3).toNat with _ | ⟨t', j⟩
  · -- no free slot in the scanned range: pad and push
    have hspec := (scanInstall_spec t e t.length (minFd - 3).toNat (by omega)).2 hscan
    refine ⟨(t ++ List.replicate ((minFd - 3).toNat - t.length) none) ++ [some e],
      t.length + ((minFd - 3).toNat - t.length) + 3, ?_, by omega, ?_, ?_, ?_⟩
    · simp only [installFdEntry]
      rw [if_neg hnl, hscan]
      simp [List.length_append, List.length_replicate]
    · have := Int.self_le_toNat (minFd - 3)
      omega
    · exact slotFree_of_length_le t _ (by omega)
    · intro g hg3 hgm hglt
      have hstart : (minFd - 3).toNat ≤ g - 3 := by omega
      exact hspec (g - 3) hstart (by omega)
  · have hspec := (scanInstall_spec t e t.length (minFd - 3).toNat (by omega)).1 t' j hscan
    obtain ⟨ha, hb, hc, hd, hmin⟩ := hspec
    refine ⟨t', j + 3, ?_, by omega, ?_, ?_, ?_⟩
    · simp only [installFdEntry]
      rw [if_neg hnl, hscan]
    · have := Int.self_le_toNat (minFd - 3)
      omega
    · simpa using hc
    · intro g hg3 hgm hglt
      have hstart : (minFd - 3).toNat ≤ g - 3 := by omega
      exact hmin (g - 3) hstart (by omega)

/-- C8: descriptor allocation always yields the lowest free slot at or above
the minimum.  First conjunct: `install_fd_entry` (used by `open`/`openat`
with `min_fd = 3`) returns the smallest free fd `>= max(min_fd, 3)`.  Second:
`fcntl(F_DUPFD, arg)` returns the smallest free fd `>= max(arg, 3)`.  Third:
after `close(f)` on an open fd `f >= 3`, `close` returns 0 and the next
installation at minimum 3 returns an fd `<= f` — `f` is reused before any
larger free fd. -/
theorem c8_min_fd_rule {α : Type} :
    (∀ (t : List (Option α)) (e : α) (minFd : Int), 0 ≤ minFd →
      ∃ t' fd, installFdEntry t e minFd = .ok (t', fd) ∧
        3 ≤ fd ∧ minFd ≤ (fd : Int) ∧ slotFree t (fd - 3) = true ∧
        ∀ g : Nat, 3 ≤ g → minFd ≤ (g : Int) → g < fd → slotFree t (g - 3) = false) ∧
    (∀ (t t' : List (Option α)) (fd : Int) (arg g : Nat),
      fcntlDupFd t fd arg = .ok (t', g) →
      3 ≤ g ∧ arg ≤ g ∧ slotFree t (g - 3) = true ∧
      ∀ g' : Nat, 3 ≤ g' → arg ≤ g' → g' < g → slotFree t (g' - 3) = false) ∧
    (∀ (t : List (Option α)) (e : α) (f : Nat) (x : α), 3 ≤ f →
      t.get? (f - 3) = some (some x) →
      (closeSys t (f : Int)).2 = 0 ∧
      ∃ t₂ fd', installFdEntry (closeSys t (f : Int)).1 e 3 = .ok (t₂, fd') ∧ fd' ≤ f) := by
  refine ⟨fun t e minFd h0 => installFdEntry_min t e minFd h0, ?_, ?_⟩
  · intro t t' fd arg g hdup
    unfold fcntlDupFd at hdup
    split_ifs at hdup with hf0 hf2 hbig
    rcases hsrc : t.get? (fd - 3).toNat with _ | o
    · rw [hsrc] at hdup
      cases hdup
    · rcases o with _ | src
      · rw [hsrc] at hdup
        cases hdup
      · rw [hsrc] at hdup
        dsimp only at hdup
        obtain ⟨t₂, fd₂, hok, h3, hm, hfree, hmin⟩ :=
          installFdEntry_min t src (max ((arg : Nat) : Int) 3) (by omega)
        rw [hok] at hdup
        rw [Except.ok.injEq, Prod.mk.injEq] at hdup
        obtain ⟨ht, hg⟩ := hdup
        subst ht hg
        have harg : (arg : Int) ≤ (fd₂ : Int) := le_trans (le_max_left _ _) hm
        refine ⟨h3, by omega, hfree, fun g' h1 h2 h3' =>
          hmin g' h1 (max_le (by omega) (by omega)) h3'⟩
  · intro t e f x hf3 hopen
    have hidx : ((f : Int) - 3).toNat = f - 3 := by omega
    have hclose : closeSys t (f : Int) = (t.set (f - 3) none, 0) := by
      simp only [closeSys]
      rw [if_neg (by omega), if_neg (by omega), hidx, hopen]
    refine ⟨by rw [hclose], ?_⟩
    obtain ⟨t₂, fd', hok, h3, hm, hfree, hmin⟩ :=
      installFdEntry_min (closeSys t (f : Int)).1 e 3 (by omega)
    refine ⟨t₂, fd', hok, ?_⟩
    by_contra hgt
    have hflt : f < fd' := by omega
    have hocc := hmin f hf3 (by omega) hflt
    have hfree' : slotFree (closeSys t (f : Int)).1 (f - 3) = true := by
      rw [hclose]
      unfold slotFree
      have hlen : f - 3 < t.length := by
        by_contra hge
        rw [List.get?_eq_none.mpr (by omega)] at hopen
        cases hopen
      rw [List.get?_eq_getElem?, List.getElem?_set_eq_of_lt _ hlen]
    rw [hocc] at hfree'
    cases hfree'

/-- C8 witness: with fds 3 and 4 open, `close(3)` returns 0 and the next
installation returns fd 3 again. -/
theorem c8_min_fd_rule_witness :
    (closeSys ([some (), some ()] : List (Option Unit)) ((3 : Nat) : Int)).2 = 0 ∧
    ∃ t₂ fd', installFdEntry (closeSys ([some (), some ()] : List (Option Unit))
        ((3 : Nat) : Int)).1 () 3 = .ok (t₂, fd') ∧ fd' ≤ 3 :=
  (c8_min_fd_rule (α := Unit)).2.2 [some (), some ()] () 3 () (by decide) rfl

/-! ## C9: non-blocking read on fd 0 -/

/-- C9: if fd 0's stored status flags carry `O_NONBLOCK` (here: exactly the
flags produced by `fcntl(0, F_SETFL, O_NONBLOCK)` from any current value),
no pipeline capture is active (i.e. `pipeline_read` yields `None`), and the
TTY input queue is empty, then `read(0, buf, len)` returns `-EAGAIN = -11`
instead of entering the blocking read. -/
theorem c9_read0_nonblock_eagain (pipeline : Option (Option (List Nat)))
    (cur : Nat) (ttyRead : Except Unit Nat) (bufLen : Nat)
    (hpipe : pipelineRead pipeline bufLen = none) :
    readFd0 pipeline (fcntlSetflStdio cur O_NONBLOCK) [] ttyRead bufLen = -11 := by
  have h11 : (fcntlSetflStdio cur O_NONBLOCK).testBit 11 = true := by
    simp only [fcntlSetflStdio]
    rw [Nat.testBit_or]
    rw [show ((O_NONBLOCK &&& STATUS_FLAG_MUTABLE).testBit 11) = true from by decide]
    simp
  have hbit : (fcntlSetflStdio cur O_NONBLOCK) &&& O_NONBLOCK ≠ 0 := by
    intro h0
    have h2 := congrArg (fun n => n.testBit 11) h0
    simp only [Nat.testBit_and, h11, Bool.true_and, Nat.zero_testBit] at h2
    rw [show O_NONBLOCK.testBit 11 = true from by decide] at h2
    cases h2
  unfold readFd0
  rw [hpipe, if_pos hbit]
  rfl

/-- C9 witness: the theorem applied with no active pipeline, current flags 0
(`O_RDONLY`), and a one-byte read. -/
theorem c9_read0_nonblock_eagain_witness :
    pipelineRead none 1 = none ∧
    readFd0 none (fcntlSetflStdio 0 O_NONBLOCK) [] (.ok 0) 1 = -11 :=
  ⟨rfl, c9_read0_nonblock_eagain none 0 (.ok 0) 1 rfl⟩

/-! ## C10: `lseek` -/

/-- C10: on an open fd `>= 3`, `lseek` with `SEEK_CUR` (1) returns the
current cursor unchanged (the offset argument is ignored), with `SEEK_END`
(2) sets and returns the cursor as exactly the file size (offset ignored),
with `SEEK_SET` (0) sets and returns the cursor to the offset argument, and
any other whence returns `-EINVAL` without touching the table. -/
theorem c10_lseek_semantics (t : List (Option OpenFileM)) (fd : Nat) (f : OpenFileM)
    (off : Nat) (hfd : 3 ≤ fd) (hopen : t.get? (fd - 3) = some (some f)) :
    lseekSys t fd off 1 = (t, i64ofNat f.seek) ∧
    lseekSys t fd off 2 = (t.set (fd - 3) (some { f with seek := f.size }), i64ofNat f.size) ∧
    lseekSys t fd off 0 = (t.set (fd - 3) (some { f with seek := off }), i64ofNat off) ∧
    ∀ w, w ≠ 0 → w ≠ 1 → w ≠ 2 → lseekSys t fd off w = (t, -EINVAL) := by
  have hnot : ¬ fd < 3 := by omega
  refine ⟨?_, ?_, ?_, fun w h0 h1 h2 => ?_⟩
  · simp only [lseekSys]
    rw [if_neg hnot, hopen]
  · simp only [lseekSys]
    rw [if_neg hnot, hopen]
  · simp only [lseekSys]
    rw [if_neg hnot, hopen]
  · obtain ⟨k, rfl⟩ : ∃ k, w = k + 3 := ⟨w - 3, by omega⟩
    simp only [lseekSys]
    rw [if_neg hnot, hopen]

/-- C10 witness: the theorem applied at a one-entry table, fd 3, cursor 5,
size 9, offset 7, plus the `-EINVAL` clause at whence 5. -/
theorem c10_lseek_semantics_witness :
    lseekSys [some ⟨5, 9⟩] 3 7 1 = ([some ⟨5, 9⟩], i64ofNat 5) ∧
    lseekSys [some ⟨5, 9⟩] 3 7 2 = ([some ⟨9, 9⟩], i64ofNat 9) ∧
    lseekSys [some ⟨5, 9⟩] 3 7 0 = ([some ⟨7, 9⟩], i64ofNat 7) ∧
    lseekSys [some ⟨5, 9⟩] 3 7 5 = ([some ⟨5, 9⟩], -EINVAL) := by
  have h := c10_lseek_semantics [some ⟨5, 9⟩] 3 ⟨5, 9⟩ 7 (by decide) rfl
  exact ⟨h.1, h.2.1, h.2.2.1, h.2.2.2 5 (by decide) (by decide) (by decide)⟩

/-! ## C3: argv/envp pointer tables -/

theorem foldl_cons_eq (l init : List Nat) :
    l.foldl (fun acc p => p :: acc) init = l.reverse ++ init := by
  induction l generalizing init with
  | nil => rfl
  | cons a t ih => simp [List.foldl_cons, ih, List.append_assoc]

theorem strAddrs_length (r : Nat) (ss : List (List Nat)) :
    (strAddrs r ss).length = ss.length := by
  induction ss generalizing r with
  | nil => rfl
  | cons s rest ih => simp [strAddrs, ih]

theorem pushStrs_spec (r : Nat) (ss : List (List Nat)) :
    (pushStrs r ss).1 = r - strTotalLen ss ∧ (pushStrs r ss).2.2 = strAddrs r ss := by
  induction ss generalizing r with
  | nil => simp [pushStrs, strTotalLen, strAddrs]
  | cons s rest ih =>
      rcases hP : pushStrs (r - (s.length + 1)) rest with ⟨a, b, c⟩
      obtain ⟨ha, hc⟩ := ih (r - (s.length + 1))
      rw [hP] at ha hc
      simp only at ha hc
      constructor
      · show (pushStrs r (s :: rest)).1 = _
        simp only [pushStrs, pushBytes, hP]
        rw [ha]
        simp only [strTotalLen, List.map_cons, List.sum_cons]
        omega
      · show (pushStrs r (s :: rest)).2.2 = _
        simp only [pushStrs, pushBytes, hP]
        rw [hc]
        simp [strAddrs]

theorem strTotalLen_reverse (ss : List (List Nat)) :
    strTotalLen ss.reverse = strTotalLen ss := by
  simp [strTotalLen, List.map_reverse, List.sum_reverse]

/-- C3 (amended): on the initial stack, reading qwords upward from the final
RSP gives: `argc`, then the argv pointers — the addresses of the argument
strings in original order (`strAddrs` enumerates the addresses assigned in
iteration order) — then a NULL, then the envp pointers — which are the
addresses of the environment strings enumerated in *reverse* of the supplied
order (`strAddrs top envs.reverse`) — then a NULL, then the auxv entries.
argv is in original order as claimed; envp is reversed. -/
theorem c3_pointer_tables (top auxEntry atBase phdrAddr phent phnum : Nat)
    (args envs : List (List Nat)) :
    (buildInitialStack top auxEntry atBase (some args) (some envs) phdrAddr phent
        phnum none none).words
      = args.length ::
        (strAddrs (top - strTotalLen envs) args ++
          0 :: (strAddrs top envs.reverse ++
            0 :: (buildInitialStack top auxEntry atBase (some args) (some envs)
                phdrAddr phent phnum none none).auxv.foldr
              (fun kv acc => kv.1 :: kv.2 :: acc) [])) := by
  rcases hE : pushStrs top envs.reverse with ⟨r1, m1, p1⟩
  rcases hA : pushStrs r1 args with ⟨r2, m2, p2⟩
  obtain ⟨hr1, hp1⟩ := pushStrs_spec top envs.reverse
  rw [hE] at hr1 hp1
  simp only at hr1 hp1
  obtain ⟨hr2, hp2⟩ := pushStrs_spec r1 args
  rw [hA] at hr2 hp2
  simp only at hr2 hp2
  simp only [buildInitialStack, hE, hA]
  rw [foldl_cons_eq, foldl_cons_eq]
  simp only [List.reverse_reverse, List.length_reverse]
  rw [hp1, hp2, hr1, strTotalLen_reverse, strAddrs_length]

/-! ## C2: interpreter chaining -/

theorem loadElf_magic (f : ElfFile) (allocOk : AllocOracle) (hint : Option Nat)
    (cap : Bool) (img : LoadedImage)
    (h : loadElfImage f allocOk hint cap = .ok img) :
    f.bytes.take 4 = ELF_MAGIC := by
  by_contra hm
  unfold loadElfImage at h
  rw [if_pos hm] at h
  cases h

theorem loadSegsGo_regions (f : ElfFile) (allocOk : AllocOracle) (bias : Nat) :
    ∀ (phs : List Phdr) (m : Nat) (regs : List (Nat × Nat)) (me : Nat)
      (rs : List (Nat × Nat)),
      loadSegsGo f allocOk bias phs m regs = .ok (me, rs) →
      ∀ r ∈ rs, r ∈ regs ∨ ∃ ph ∈ phs, ph.p_type = PT_LOAD ∧
        r = (bias + ph.p_vaddr, ph.p_memsz) := by
  intro phs
  induction phs with
  | nil =>
      intro m regs me rs h r hr
      simp only [loadSegsGo] at h
      rw [Except.ok.injEq, Prod.mk.injEq] at h
      left
      rw [← h.2] at hr
      exact hr
  | cons ph rest ih =>
      intro m regs me rs h r hr
      simp only [loadSegsGo] at h
      by_cases hty : ph.p_type ≠ PT_LOAD
      · rw [if_pos hty] at h
        have hres := ih _ _ _ _ h
        rcases hres r hr with hl | ⟨ph', hm', hrest⟩
        · exact Or.inl hl
        · exact Or.inr ⟨ph', List.mem_cons_of_mem _ hm', hrest⟩
      · rw [if_neg hty] at h
        by_cases hdata : ph.p_offset + ph.p_filesz ≤ f.bytes.length
        · rw [if_neg (by simpa using hdata)] at h
          by_cases hmem : ph.p_memsz = 0
          · rw [if_pos hmem] at h
            have hres := ih _ _ _ _ h
            rcases hres r hr with hl | ⟨ph', hm', hrest⟩
            · exact Or.inl hl
            · exact Or.inr ⟨ph', List.mem_cons_of_mem _ hm', hrest⟩
          · rw [if_neg hmem] at h
            by_cases halloc : allocOk (bias + ph.p_vaddr) ph.p_memsz true true = true
            · rw [if_pos halloc] at h
              have hres := ih _ _ _ _ h
              rcases hres r hr with hl | ⟨ph', hm', hrest⟩
              · rcases List.mem_append.mp hl with hl' | hl''
                · exact Or.inl hl'
                · refine Or.inr ⟨ph, List.mem_cons_self _ _, by omega, ?_⟩
                  simpa using hl''
              · exact Or.inr ⟨ph', List.mem_cons_of_mem _ hm', hrest⟩
            · rw [if_neg halloc] at h
              cases h
        · rw [if_pos (by simpa using hdata)] at h
          have hres := ih _ _ _ _ h
          rcases hres r hr with hl | ⟨ph', hm', hrest⟩
          · exact Or.inl hl
          · exact Or.inr ⟨ph', List.mem_cons_of_mem _ hm', hrest⟩

theorem loadElf_fields (f : ElfFile) (allocOk : AllocOracle) (hint : Option Nat)
    (cap : Bool) (img : LoadedImage)
    (h : loadElfImage f allocOk hint cap = .ok img) :
    img.load_base = (if f.e_type = 3 then hint.getD MAIN_DYN_LOAD_BASE else 0) ∧
    img.entry_point
      = f.e_entry + (if f.e_type = 3 then hint.getD MAIN_DYN_LOAD_BASE else 0) ∧
    ∀ r ∈ img.regions, ∃ ph ∈ f.phdrs, ph.p_type = PT_LOAD ∧
      r = ((if f.e_type = 3 then hint.getD MAIN_DYN_LOAD_BASE else 0) + ph.p_vaddr,
        ph.p_memsz) := by
  simp only [loadElfImage] at h
  by_cases h1 : f.bytes.take 4 ≠ ELF_MAGIC
  · rw [if_pos h1] at h
    cases h
  rw [if_neg h1] at h
  by_cases h2 : f.parse_ok = true
  case neg =>
    rw [if_pos (by simpa using h2)] at h
    cases h
  case pos =>
  rw [if_neg (by simp [h2])] at h
  set B := if f.e_type = 3 then hint.getD MAIN_DYN_LOAD_BASE else 0 with hB
  rcases hseg : loadSegsGo f allocOk B f.phdrs 0 [] with _ | ⟨me, rs⟩
  · rw [hseg] at h
    simp at h
  · rw [hseg] at h
    dsimp only at h
    rw [Except.ok.injEq] at h
    subst h
    refine ⟨rfl, rfl, fun r hr => ?_⟩
    rcases loadSegsGo_regions f allocOk B f.phdrs 0 [] me rs hseg r hr with hl | hx
    · cases hl
    · exact hx

/-- The auxv written by `build_initial_stack` carries `AT_ENTRY` (key 9) =
`aux_entry` and `AT_BASE` (key 7) = `at_base`. -/
theorem build_auxv (top auxEntry atBase : Nat) (args envs : List (List Nat))
    (phdrAddr phent phnum : Nat) :
    (9, auxEntry) ∈ (buildInitialStack top auxEntry atBase (some args) (some envs)
        phdrAddr phent phnum none none).auxv ∧
    (7, atBase) ∈ (buildInitialStack top auxEntry atBase (some args) (some envs)
        phdrAddr phent phnum none none).auxv := by
  rcases hE : pushStrs top envs.reverse with ⟨r1, m1, p1⟩
  rcases hA : pushStrs r1 args with ⟨r2, m2, p2⟩
  simp [buildInitialStack, hE, hA]

/-- C2: when the main image names a PT_INTERP interpreter and the VFS serves
an ET_DYN file for it, `Process::new` loads the interpreter biased by
`0x60000000` (its load base is `0x60000000` and every loaded segment sits at
`0x60000000 + p_vaddr`), sets the process entry point to the interpreter's
biased entry, and the auxv on the initial stack carries `AT_ENTRY` = the main
image's biased entry and `AT_BASE` = the interpreter's load base. -/
theorem c2_interpreter_chain (content F : ElfFile) (args env : List (List Nat))
    (vfs : List Nat → Option ElfFile) (allocOk : AllocOracle) (p : List Nat)
    (mainImg interpImg : LoadedImage) (out : NewProc)
    (hmain : loadElfImage content allocOk (some MAIN_DYN_LOAD_BASE) true = .ok mainImg)
    (hip : mainImg.interp_path = some p)
    (hvfs : vfs p = some F)
    (hdyn : F.e_type = 3)
    (hinterp : loadElfImage F allocOk (some INTERP_DYN_LOAD_BASE) false = .ok interpImg)
    (hout : processNew content args env vfs allocOk = .ok out) :
    interpImg.load_base = INTERP_DYN_LOAD_BASE ∧
    (∀ r ∈ interpImg.regions, ∃ ph ∈ F.phdrs, ph.p_type = PT_LOAD ∧
      r = (INTERP_DYN_LOAD_BASE + ph.p_vaddr, ph.p_memsz)) ∧
    out.entry_point = F.e_entry + INTERP_DYN_LOAD_BASE ∧
    (9, mainImg.entry_point) ∈ out.stack.auxv ∧
    (7, interpImg.load_base) ∈ out.stack.auxv := by
  have hmagic : content.bytes.take 4 = ELF_MAGIC := loadElf_magic _ _ _ _ _ hmain
  obtain ⟨hibase, hientry, hiregs⟩ := loadElf_fields F allocOk (some INTERP_DYN_LOAD_BASE)
    false interpImg hinterp
  simp only [hdyn, if_true, eq_self_iff_true, Option.getD_some] at hibase hientry hiregs
  have hchain : loadInterpreterImage vfs allocOk p = .ok interpImg := by
    unfold loadInterpreterImage
    rw [hvfs]
    exact hinterp
  unfold processNew at hout
  rw [if_neg (by simp [hmagic])] at hout
  rw [hmain] at hout
  dsimp only at hout
  rw [hip] at hout
  dsimp only at hout
  rw [hchain] at hout
  dsimp only at hout
  rw [Except.ok.injEq] at hout
  subst hout
  refine ⟨hibase, ?_, ?_, ?_, ?_⟩
  · intro r hr
    exact hiregs r hr
  · exact hientry
  · exact (build_auxv _ _ _ _ _ _ _ _).1
  · exact (build_auxv _ _ _ _ _ _ _ _).2

/-- C2 witness: the chain applied to the concrete fixtures `mainElfC`,
`interpElfC`, `vfsC`. -/
theorem c2_interpreter_chain_witness :
    loadElfImage mainElfC allocAlways (some MAIN_DYN_LOAD_BASE) true = .ok mainImgC ∧
    mainImgC.interp_path = some [0x49] ∧
    vfsC [0x49] = some interpElfC ∧
    interpElfC.e_type = 3 ∧
    loadElfImage interpElfC allocAlways (some INTERP_DYN_LOAD_BASE) false
      = .ok interpImgC ∧
    processNew mainElfC [[104]] [[65]] vfsC allocAlways = .ok outC ∧
    (interpImgC.load_base = INTERP_DYN_LOAD_BASE ∧
      (∀ r ∈ interpImgC.regions, ∃ ph ∈ interpElfC.phdrs, ph.p_type = PT_LOAD ∧
        r = (INTERP_DYN_LOAD_BASE + ph.p_vaddr, ph.p_memsz)) ∧
      outC.entry_point = interpElfC.e_entry + INTERP_DYN_LOAD_BASE ∧
      (9, mainImgC.entry_point) ∈ outC.stack.auxv ∧
      (7, interpImgC.load_base) ∈ outC.stack.auxv) :=
  ⟨rfl, rfl, rfl, rfl, rfl, rfl,
    c2_interpreter_chain mainElfC interpElfC [[104]] [[65]] vfsC allocAlways [0x49]
      mainImgC interpImgC outC rfl rfl rfl rfl rfl rfl⟩

end Rimmy
